import Mathlib

/-!
# Gantt-Sync reference server: clock and hub

A shallow embedding of `internal/hlc/hlc.go` (the Hybrid Logical Clock:
`Zero`, `Parse`, `HLC.String`, `HLC.Compare`), of `internal/protocol/types.go`
and of `cmd/server/main.go` (the coordinator loop `Hub.run`, the session
handler `handleWebSocket`, the validator `handleValidateOp`), with theorems
about them.

Conventions of the embedding:

* a Go `string` is a Lean `String`, processed through its list of characters
  (`String.data`); for well-formed UTF-8 text the byte order Go compares by
  and the code-point order used here coincide;
* Go's `int64` and `int` are `Int`; nothing in the embedded code does
  arithmetic that could wrap on the values the theorems range over;
* a Go function returning `(T, error)` returns `Except E T`, or `Option T`
  where the code only tests the error against nil;
* the coordinator and the handlers run sequentially: what they do to the
  outside (writes, closes, submissions to the hub) is returned as a list.
-/

namespace Hlc

/-! ## Data model -/

/-- The Go struct `HLC` of `hlc.go`: milliseconds since the Unix epoch, a
counter and the node identifier. -/
structure HLC where
  Millis : Int
  Counter : Int
  NodeID : String
  deriving DecidableEq, Repr

deriving instance DecidableEq for Except

/-- The three errors `Parse` can return, in the order of the source:
`invalid HLC format`, `invalid time component`, `invalid counter component`. -/
inductive ParseError where
  | invalidFormat
  | invalidTime
  | invalidCounter
  deriving DecidableEq, Repr

/-- Go's `Zero()`: the epoch HLC. -/
def Zero : HLC := { Millis := 0, Counter := 0, NodeID := "" }

/-! ## Compare -/

/-- Go's `<` on strings, on the character lists: the first differing position
decides, and a proper prefix is smaller. -/
def strLess : List Char → List Char → Bool
  | [], [] => false
  | [], _ :: _ => true
  | _ :: _, [] => false
  | a :: as, b :: bs =>
    if a < b then true
    else if b < a then false
    else strLess as bs

/-- Go's `HLC.Compare`: the six tests of the source in their order, `-1`,
`1` or `0`. The test `h.NodeID > other.NodeID` is `other.NodeID < h.NodeID`. -/
def HLC.Compare (h other : HLC) : Int :=
  if h.Millis < other.Millis then -1
  else if h.Millis > other.Millis then 1
  else if h.Counter < other.Counter then -1
  else if h.Counter > other.Counter then 1
  else if strLess h.NodeID.data other.NodeID.data then -1
  else if strLess other.NodeID.data h.NodeID.data then 1
  else 0

/-- The order key of an HLC, in the order the spec names it: `Millis`, then
`Counter`, then the characters of `NodeID`. -/
def HLC.key (h : HLC) : Int × Int × List Char := (h.Millis, h.Counter, h.NodeID.data)

/-- The strict lexicographic order on keys, written with the library's
lexicographic orders on pairs and on lists. -/
def keyLess (k1 k2 : Int × Int × List Char) : Prop :=
  Prod.Lex (fun x y : Int => x < y)
    (Prod.Lex (fun x y : Int => x < y) (List.Lex (fun x y : Char => x < y))) k1 k2

/-! ## The regular expression of `Parse`

`regexp.MustCompile` with the pattern `^(.+)-([0-9a-fA-F]{4})-(.+)$` and
`FindStringSubmatch`. Go's regexp package gives the leftmost-first
(backtracking) match: the greedy `(.+)` of group 1 takes the longest prefix
for which the rest of the pattern still matches. Without the `s` flag `.`
matches every character but the newline, and without the `m` flag `^` and `$`
match only at the two ends of the text. -/

/-- The class `[0-9a-fA-F]`. -/
def isHexDigit (c : Char) : Bool :=
  ('0' ≤ c && c ≤ '9') || ('a' ≤ c && c ≤ 'f') || ('A' ≤ c && c ≤ 'F')

/-- The regexp atom `.`: any character except the newline. -/
def isDot (c : Char) : Bool := c != '\n'

/-- The tail `(.+)$` of the pattern: the whole rest, non-empty and without a newline. -/
def matchNodeID (s : List Char) : Bool := !s.isEmpty && s.all isDot

/-- The part `-([0-9a-fA-F]{4})-(.+)$` of the pattern, matched at the head of
the text: the two captures, groups 2 and 3. -/
def matchCounterNode : List Char → Option (List Char × List Char)
  | h1 :: a :: b :: c :: d :: h2 :: rest =>
    if h1 = '-' && isHexDigit a && isHexDigit b && isHexDigit c && isHexDigit d
        && h2 = '-' && matchNodeID rest
    then some ([a, b, c, d], rest) else none
  | _ => none

/-- The submatches of `^(.+)-([0-9a-fA-F]{4})-(.+)$` on a text, `none` when
the pattern does not match (`matches == nil`). Group 1 must take the head
character, which has to be a non-newline; being greedy it first tries to take
more (the recursive call), and only when no longer group 1 works does it end
after the head character. -/
def FindStringSubmatch : List Char → Option (List Char × List Char × List Char)
  | [] => none
  | x :: rest =>
    if isDot x then
      match FindStringSubmatch rest with
      | some (g1, g2, g3) => some (x :: g1, g2, g3)
      | none =>
        match matchCounterNode rest with
        | some (g2, g3) => some ([x], g2, g3)
        | none => none
    else none

/-! ## `strconv.ParseInt(s, 16, 64)` and `fmt.Sprintf("%04X", n)` -/

/-- The value of a hexadecimal digit, `none` for any other character. -/
def hexVal (c : Char) : Option Nat :=
  if '0' ≤ c && c ≤ '9' then some (c.toNat - 48)
  else if 'a' ≤ c && c ≤ 'f' then some (c.toNat - 87)
  else if 'A' ≤ c && c ≤ 'F' then some (c.toNat - 55)
  else none

/-- The digit loop of `strconv.ParseUint` in base 16: `none` at the first
character that is not a hexadecimal digit. -/
def parseHexDigits (acc : Nat) : List Char → Option Nat
  | [] => some acc
  | c :: cs =>
    match hexVal c with
    | some d => parseHexDigits (acc * 16 + d) cs
    | none => none

/-- The call `strconv.ParseUint(s, 16, 64)`: a syntax error on the empty string or
on a character that is no digit, a range error from `2^64` on. -/
def ParseUint16 (s : List Char) : Option Nat :=
  match s with
  | [] => none
  | _ :: _ =>
    match parseHexDigits 0 s with
    | some n => if n < 2 ^ 64 then some n else none
    | none => none

/-- The call `strconv.ParseInt(s, 16, 64)`: an optional sign, then `ParseUint`,
then the range test against the 64-bit signed integers; `none` stands for a
returned error. -/
def ParseInt16 (s : List Char) : Option Int :=
  match s with
  | [] => none
  | c :: cs =>
    if c = '+' then
      match ParseUint16 cs with
      | some n => if n < 2 ^ 63 then some (n : Int) else none
      | none => none
    else if c = '-' then
      match ParseUint16 cs with
      | some n => if n ≤ 2 ^ 63 then some (-(n : Int)) else none
      | none => none
    else
      match ParseUint16 (c :: cs) with
      | some n => if n < 2 ^ 63 then some (n : Int) else none
      | none => none

/-- The upper-case hexadecimal digit of a value below 16. -/
def hexDigitUpper (d : Nat) : Char :=
  if d < 10 then Char.ofNat (48 + d) else Char.ofNat (55 + d)

/-- The upper-case hexadecimal digits of `n`, most significant first, without
padding; `fuel` bounds the number of digits. -/
def upperHexDigits : Nat → Nat → List Char
  | 0, _ => []
  | fuel + 1, n =>
    if n < 16 then [hexDigitUpper n]
    else upperHexDigits fuel (n / 16) ++ [hexDigitUpper (n % 16)]

/-- Left padding with `'0'` up to `width` characters. -/
def zeroPad (width : Nat) (ds : List Char) : List Char :=
  List.replicate (width - ds.length) '0' ++ ds

/-- The call `fmt.Sprintf("%04X", n)`: upper-case hexadecimal, zero-padded to
width 4, the sign of a negative number counting in the width. -/
def Sprintf04X (n : Int) : List Char :=
  if n < 0 then '-' :: zeroPad 3 (upperHexDigits (n.natAbs + 1) n.natAbs)
  else zeroPad 4 (upperHexDigits (n.toNat + 1) n.toNat)

/-! ## The calendar of Go's `time` package

`time.Time` counts in the proleptic Gregorian calendar. Days are numbered
here from 0001-01-01 (day 0), the first day of a 400-year cycle, as Go's
absolute epoch is; with the flooring division of `Int` the same formulas
serve the days before it. -/

/-- Go's `isLeap`. -/
def isLeap (year : Int) : Bool :=
  year % 4 = 0 && (year % 100 != 0 || year % 400 = 0)

/-- Go's table `daysBefore`: the days of a non-leap year before month `m + 1`
starts (`daysBefore 0 = 0`, `daysBefore 12 = 365`). -/
def daysBefore : Nat → Int
  | 0 => 0
  | 1 => 31
  | 2 => 59
  | 3 => 90
  | 4 => 120
  | 5 => 151
  | 6 => 181
  | 7 => 212
  | 8 => 243
  | 9 => 273
  | 10 => 304
  | 11 => 334
  | _ => 365

/-- Go's `daysIn(month, year)`. -/
def daysIn (month : Nat) (year : Int) : Int :=
  if month = 2 && isLeap year then 29
  else daysBefore month - daysBefore (month - 1)

/-- The number of the day `year-month-day`, counted from 0001-01-01, as
`time.Date` computes it: whole 400-, 100-, 4- and 1-year cycles, then the
months before, the leap day, and the days before. -/
def daysFromCivil (year : Int) (month : Nat) (day : Int) : Int :=
  let y := year - 1
  let n400 := y / 400
  let y1 := y - 400 * n400
  let n100 := y1 / 100
  let y2 := y1 - 100 * n100
  let n4 := y2 / 4
  let y3 := y2 - 4 * n4
  let d := 146097 * n400 + 36524 * n100 + 1461 * n4 + 365 * y3
  let d := d + daysBefore (month - 1)
  let d := if isLeap year && month ≥ 3 then d + 1 else d
  d + (day - 1)

/-- The year and the day within the year (from 0) of a day number, as
`absDate` of Go's `time` package computes them by cutting off 400-, 100-, 4-
and 1-year cycles. -/
def yearDay (days : Int) : Int × Int :=
  let n400 := days / 146097
  let d1 := days - 146097 * n400
  let n100 := d1 / 36524
  let n100 := n100 - n100 / 4
  let d2 := d1 - 36524 * n100
  let n4 := d2 / 1461
  let d3 := d2 - 1461 * n4
  let n1 := d3 / 365
  let n1 := n1 - n1 / 4
  let yday := d3 - 365 * n1
  (400 * n400 + 100 * n100 + 4 * n4 + n1 + 1, yday)

/-- The second half of the month computation of `absDate`, on a day (from 0)
of a year without leap day: the month is estimated as if every month had 31
days, which may be one too low, and corrected with `daysBefore`. The month
(1 to 12) and the day of the month. -/
def monthOf (day : Int) : Nat × Int :=
  let month := (day / 31).toNat
  let fin := daysBefore (month + 1)
  if day ≥ fin then (month + 2, day - fin + 1)
  else (month + 1, day - daysBefore month + 1)

/-- The month (1 to 12) and the day of the month of the day `yday` (from 0)
of a year, as `absDate` computes them: in a leap year the leap day is
answered at once and the days after it move down by one. -/
def monthDay (leap : Bool) (yday : Int) : Nat × Int :=
  if leap && yday = 31 + 29 - 1 then (2, 29)
  else monthOf (if leap && yday > 31 + 29 - 1 then yday - 1 else yday)

/-- The civil date `(year, month, day)` of a day number. -/
def civilFromDays (days : Int) : Int × Nat × Int :=
  let yd := yearDay days
  let md := monthDay (isLeap yd.1) yd.2
  (yd.1, md.1, md.2)

/-- The day number of 1970-01-01, the Unix epoch. -/
def unixEpochDay : Int := 719162

/-! ## Instants, `time.UnixMilli`, `Time.UnixMilli` and `Time.Format` -/

/-- An instant as Go's `time.Time` holds it (the location apart, which none
of the embedded code reads): whole seconds since the Unix epoch and the
nanoseconds within the second, `0 ≤ nsec < 10^9`. -/
structure Time where
  sec : Int
  nsec : Int
  deriving DecidableEq, Repr

/-- Go's `time.UnixMilli(msec)`: `Unix(msec/1e3, (msec%1e3)*1e6)`, where `Unix`
carries a negative nanosecond part into the seconds; together that is the
flooring division. -/
def UnixMilli (msec : Int) : Time :=
  { sec := msec / 1000, nsec := msec % 1000 * 1000000 }

/-- Go's `Time.UnixMilli`: `sec*1e3 + nsec/1e6`. -/
def Time.UnixMilli (t : Time) : Int := t.sec * 1000 + t.nsec / 1000000

/-- The decimal digit of a value below 10. -/
def digitChar (d : Nat) : Char := Char.ofNat (48 + d)

/-- The decimal digits of `n`, most significant first, without padding;
`fuel` bounds the number of digits. -/
def decDigits : Nat → Nat → List Char
  | 0, _ => []
  | fuel + 1, n =>
    if n < 10 then [digitChar n]
    else decDigits fuel (n / 10) ++ [digitChar (n % 10)]

/-- The helper `appendInt` of Go's `time` package: the decimal form of `x`, the
digits zero-padded to `width`, a minus sign in front of a negative number. -/
def appendInt (x : Int) (width : Nat) : List Char :=
  if x < 0 then '-' :: zeroPad width (decDigits (x.natAbs + 1) x.natAbs)
  else zeroPad width (decDigits (x.toNat + 1) x.toNat)

/-- The call `t.UTC().Format("2006-01-02T15:04:05.000Z")`: year (at least 4
digits), month, day, hour, minute and second (2 digits each), the
milliseconds (3 digits, the nanoseconds truncated) and the literal `Z`. -/
def Time.Format (t : Time) : List Char :=
  let days := t.sec / 86400 + unixEpochDay
  let sod := t.sec % 86400
  let ymd := civilFromDays days
  appendInt ymd.1 4 ++ '-' :: appendInt ymd.2.1 2 ++ '-' :: appendInt ymd.2.2 2
    ++ 'T' :: appendInt (sod / 3600) 2 ++ ':' :: appendInt (sod % 3600 / 60) 2
    ++ ':' :: appendInt (sod % 60) 2 ++ '.' :: appendInt (t.nsec / 1000000) 3 ++ ['Z']

/-! ## `time.Parse(time.RFC3339, value)`

The layout is `2006-01-02T15:04:05Z07:00`. `time.Parse` walks it chunk by
chunk: a 4-digit year, 2-digit month and day, an hour of one or two digits,
2-digit minute and second, a fractional second when the value has one
(`.` or `,` and digits; the layout has none), and the zone, `Z` or
`±hh:mm`; nothing may follow. -/

/-- The test `isDigit` of the `time` package. -/
def isDigit (c : Char) : Bool := '0' ≤ c && c ≤ '9'

/-- The value of a decimal digit. -/
def digitVal (c : Char) : Nat := c.toNat - 48

/-- The helper `getnum(s, fixed)`: a number of two digits, or of one digit when
`fixed` is false and no second digit follows; the number and the rest. -/
def getnum (s : List Char) (fixed : Bool) : Option (Nat × List Char) :=
  match s with
  | [] => none
  | a :: rest =>
    if isDigit a then
      match rest with
      | [] => if fixed then none else some (digitVal a, rest)
      | b :: rest2 =>
        if isDigit b then some (digitVal a * 10 + digitVal b, rest2)
        else if fixed then none else some (digitVal a, rest)
    else none

/-- The chunk `2006` (`stdLongYear`): exactly four digits. -/
def getYear (s : List Char) : Option (Nat × List Char) :=
  match s with
  | a :: b :: c :: d :: rest =>
    if isDigit a && isDigit b && isDigit c && isDigit d then
      some (digitVal a * 1000 + digitVal b * 100 + digitVal c * 10 + digitVal d, rest)
    else none
  | _ => none

/-- The helper `skip(value, prefix)` for a one-character literal of the layout. -/
def skip (c : Char) (s : List Char) : Option (List Char) :=
  match s with
  | [] => none
  | x :: rest => if x = c then some rest else none

/-- The number a list of decimal digits denotes. -/
def digitsVal (ds : List Char) : Nat :=
  ds.foldl (fun acc c => acc * 10 + digitVal c) 0

/-- The helper `parseNanoseconds` on the digits after the separator: the first
nine digits count, scaled to nanoseconds. -/
def parseNanoseconds (ds : List Char) : Nat :=
  digitsVal (ds.take 9) * 10 ^ (9 - (ds.take 9).length)

/-- The fractional second after the seconds field, when the value has one: a
`.` or `,` followed by at least one digit, then all the digits that follow.
The nanoseconds (0 without a fraction) and the rest. -/
def getFraction (s : List Char) : Nat × List Char :=
  match s with
  | p :: d :: rest =>
    if (p = '.' || p = ',') && isDigit d then
      (parseNanoseconds ((d :: rest).takeWhile isDigit), (d :: rest).dropWhile isDigit)
    else (0, s)
  | _ => (0, s)

/-- The chunk `Z07:00` (`stdISO8601ColonTZ`): `Z`, or a sign, two digits, a
colon and two digits, the hours at most 24 and the minutes at most 60. The
offset in seconds east of UTC and the rest. -/
def getZone (s : List Char) : Option (Int × List Char) :=
  match s with
  | [] => none
  | z :: rest0 =>
    if z = 'Z' then some (0, rest0)
    else
      match rest0 with
      | h1 :: h2 :: col :: m1 :: m2 :: rest =>
        if col = ':' then
          match getnum [h1, h2] true, getnum [m1, m2] true with
          | some (hr, _), some (mm, _) =>
            if hr > 24 || mm > 60 then none
            else if z = '+' then some (((hr * 60 + mm) * 60 : Nat), rest)
            else if z = '-' then some (-(((hr * 60 + mm) * 60 : Nat) : Int), rest)
            else none
          | _, _ => none
        else none
      | _ => none

/-- The fields `time.Parse` reads from a value in the layout RFC3339. -/
structure Fields where
  year : Nat
  month : Nat
  day : Nat
  hour : Nat
  min : Nat
  sec : Nat
  nsec : Nat
  zoneOffset : Int
  deriving DecidableEq, Repr

/-- The date chunks `2006-01-02T` of the layout: year, month, day and the rest. -/
def getDate (value : List Char) : Option (Nat × Nat × Nat × List Char) :=
  (getYear value).bind fun yv =>
  (skip '-' yv.2).bind fun v =>
  (getnum v true).bind fun mv =>
  (skip '-' mv.2).bind fun v =>
  (getnum v true).bind fun dv =>
  (skip 'T' dv.2).bind fun v =>
  some (yv.1, mv.1, dv.1, v)

/-- The clock chunks `15:04:05` of the layout, the hour of one or two digits:
hour, minute, second and the rest. -/
def getClock (value : List Char) : Option (Nat × Nat × Nat × List Char) :=
  (getnum value false).bind fun hv =>
  (skip ':' hv.2).bind fun v =>
  (getnum v true).bind fun mv =>
  (skip ':' mv.2).bind fun v =>
  (getnum v true).bind fun sv =>
  some (hv.1, mv.1, sv.1, sv.2)

/-- The walk of `time.Parse` along the layout `2006-01-02T15:04:05Z07:00`: all
the fields, and the value used up (`extra text` is an error). -/
def getFields (value : List Char) : Option Fields :=
  (getDate value).bind fun d =>
  (getClock d.2.2.2).bind fun c =>
  let f := getFraction c.2.2.2
  (getZone f.2).bind fun z =>
  if z.2.isEmpty then
    some { year := d.1, month := d.2.1, day := d.2.2.1, hour := c.1, min := c.2.1,
           sec := c.2.2.1, nsec := f.1, zoneOffset := z.1 }
  else none

/-- The range tests of `time.Parse`: month 1 to 12, hour below 24, minute and
second below 60, and the day within the length of its month. -/
def Fields.inRange (f : Fields) : Bool :=
  1 ≤ f.month && f.month ≤ 12 && f.hour < 24 && f.min < 60 && f.sec < 60
    && 1 ≤ f.day && (f.day : Int) ≤ daysIn f.month f.year

/-- The instant of the fields: the civil time read as UTC (`time.Date`), moved
back by the zone offset. -/
def Fields.toTime (f : Fields) : Time :=
  { sec := (daysFromCivil f.year f.month f.day - unixEpochDay) * 86400
      + f.hour * 3600 + f.min * 60 + f.sec - f.zoneOffset,
    nsec := f.nsec }

/-- The call `time.Parse(time.RFC3339, value)`, `none` standing for a returned
error (which of the errors it is plays no role in `hlc.go`). -/
def timeParse (value : List Char) : Option Time :=
  match getFields value with
  | some f => if f.inRange then some f.toTime else none
  | none => none

/-! ## `Parse` and `HLC.String` -/

/-- Go's `strings.HasSuffix(s, "Z")`. -/
def hasSuffixZ (s : List Char) : Bool := s.getLast? = some 'Z'

/-- Lines 44 to 51 of `hlc.go`: `time.Parse` with the layout RFC3339 and, when
that fails on a text that does not end in `Z`, once more with a `Z` appended. -/
def parseTime (isoTime : List Char) : Option Time :=
  match timeParse isoTime with
  | some t => some t
  | none => if !hasSuffixZ isoTime then timeParse (isoTime ++ ['Z']) else none

/-- Go's `Parse`: the regular expression, the time component, the counter. -/
def Parse (s : String) : Except ParseError HLC :=
  match FindStringSubmatch s.data with
  | none => .error .invalidFormat
  | some (isoTime, counterHex, nodeID) =>
    match parseTime isoTime with
    | none => .error .invalidTime
    | some t =>
      match ParseInt16 counterHex with
      | none => .error .invalidCounter
      | some counter =>
        .ok { Millis := t.UnixMilli, Counter := counter, NodeID := String.mk nodeID }

/-- Go's `HLC.String`: the time of `Millis` in UTC, the counter as `%04X`, the
node identifier, joined by hyphens. -/
def HLC.String (h : HLC) : String :=
  String.mk ((UnixMilli h.Millis).Format ++ '-' :: Sprintf04X h.Counter ++ '-' :: h.NodeID.data)

/-! ## Auxiliary definitions

Names for the shapes of text the theorems speak about. -/

/-- The two decimal digits of a number below 100. -/
def pad2 (n : Nat) : List Char := [digitChar (n / 10), digitChar (n % 10)]

/-- The three decimal digits of a number below 1000. -/
def pad3 (n : Nat) : List Char := [digitChar (n / 100), digitChar (n / 10 % 10), digitChar (n % 10)]

/-- The four decimal digits of a number below 10000. -/
def pad4 (n : Nat) : List Char :=
  [digitChar (n / 1000), digitChar (n / 100 % 10), digitChar (n / 10 % 10), digitChar (n % 10)]

/-- The four upper-case hexadecimal digits of a number below 65536. -/
def hex4 (n : Nat) : List Char :=
  [hexDigitUpper (n / 4096), hexDigitUpper (n / 256 % 16), hexDigitUpper (n / 16 % 16),
    hexDigitUpper (n % 16)]

/-- An upper-case hexadecimal digit: `0` to `9` or `A` to `F`. -/
def isUpperHexDigit (c : Char) : Bool :=
  ('0' ≤ c && c ≤ '9') || ('A' ≤ c && c ≤ 'F')

/-- The text `s` splits, after the prefix `t`, into a hyphen, the four
hexadecimal digits `c`, a hyphen, and the rest `n`: a hyphen-bounded block of
exactly 4 hexadecimal digits occurs in `s` at the position `t.length`. -/
def IsBlockSplit (s t c n : String) : Prop :=
  s = t ++ "-" ++ c ++ "-" ++ n ∧ c.length = 4 ∧ ∀ x ∈ c.data, isHexDigit x = true

/-- A hyphen, four hexadecimal digits, a hyphen and at least one more
character, at the head of the text. -/
def blockAt : List Char → Bool
  | h1 :: a :: b :: c :: d :: h2 :: rest =>
    h1 = '-' && isHexDigit a && isHexDigit b && isHexDigit c && isHexDigit d
      && h2 = '-' && !rest.isEmpty
  | _ => false

/-- A hyphen, four hexadecimal digits, a hyphen and at least one more
character, somewhere in the text. -/
def hasBlock : List Char → Bool
  | [] => false
  | x :: rest => blockAt (x :: rest) || hasBlock rest

/-- The text `YYYY-MM-DDTHH:mm:ss.sssZ` of the given fields. -/
def canonicalTime (Y M D h mi s f : Nat) : List Char :=
  pad4 Y ++ ('-' :: (pad2 M ++ ('-' :: (pad2 D ++ ('T' :: (pad2 h ++ (':' :: (pad2 mi
    ++ (':' :: (pad2 s ++ ('.' :: (pad3 f ++ ['Z']))))))))))))

end Hlc

namespace Server

/-! ## The hub of `cmd/server/main.go`

`Hub.run` is a loop around one `select`: each turn serves one request from
one of the three channels `register`, `unregister` and `broadcast`. The
embedding is the body of the three cases, as functions on the state of the
hub. What a turn does to the connections (`WriteMessage`, `Close`) is
recorded, in order, in a log. -/

/-- A connection, `*websocket.Conn`: the identity of the pointer. -/
abbrev Conn := Nat

/-- A message, the `[]byte` sent on the channel `broadcast`. -/
abbrev Message := String

/-- A call the coordinator makes on a connection. -/
inductive Effect where
  | write (conn : Conn) (message : Message)
  | close (conn : Conn)
  deriving DecidableEq, Repr

/-- The state of the hub: the keys of the map `clients` (every value stored is
`true`; a key occurs once) and the log of the calls made on connections so
far, oldest first. -/
structure Hub where
  clients : List Conn
  log : List Effect
  deriving DecidableEq, Repr

/-- Go's `newHub`: an empty map. -/
def newHub : Hub := { clients := [], log := [] }

/-- The case `conn := <-h.register`: `h.clients[conn] = true`. A key that is
in the map keeps its one entry. -/
def Hub.register (h : Hub) (conn : Conn) : Hub :=
  if conn ∈ h.clients then h else { h with clients := h.clients ++ [conn] }

/-- The case `conn := <-h.unregister`: when the key is in the map it is deleted
and the connection closed. -/
def Hub.unregister (h : Hub) (conn : Conn) : Hub :=
  if conn ∈ h.clients then
    { clients := h.clients.erase conn, log := h.log ++ [Effect.close conn] }
  else h

/-- One turn of the loop `for conn := range h.clients` of the broadcast case:
the write, and on an error the close and the delete. `fails conn` tells
whether `WriteMessage` returns an error on this connection. -/
def Hub.deliver (fails : Conn → Bool) (message : Message) (h : Hub) (conn : Conn) : Hub :=
  if fails conn then
    { clients := h.clients.erase conn,
      log := h.log ++ [Effect.write conn message, Effect.close conn] }
  else { h with log := h.log ++ [Effect.write conn message] }

/-- The case `message := <-h.broadcast`. `order` is the order in which `range`
enumerates the keys of the map, which the Go runtime chooses; the loop only
ever deletes the key it is at, so every key of the map is visited once. -/
def Hub.broadcast (h : Hub) (order : List Conn) (fails : Conn → Bool)
    (message : Message) : Hub :=
  order.foldl (Hub.deliver fails message) h

/-- A request received by `Hub.run` on one of its three channels. With a
broadcast come the two things the environment decides during the pass: the
order in which `range` enumerates the map and the writes that fail. -/
inductive Request where
  | register (conn : Conn)
  | unregister (conn : Conn)
  | broadcast (message : Message) (order : List Conn) (fails : Conn → Bool)

/-- One turn of the loop of `Hub.run`: the `select` serves one request. -/
def Hub.step (h : Hub) : Request → Hub
  | Request.register conn => h.register conn
  | Request.unregister conn => h.unregister conn
  | Request.broadcast message order fails => h.broadcast order fails message

/-- Go's `Hub.run` on the requests it receives, in the order it receives them;
the loop itself never ends, this is the state after the given requests. -/
def Hub.run (h : Hub) (requests : List Request) : Hub :=
  requests.foldl Hub.step h

/-- The calls one broadcast pass makes when it visits the connections of
`order`: a write on each, followed by a close where the write fails. -/
def deliveries (fails : Conn → Bool) (message : Message) : List Conn → List Effect
  | [] => []
  | conn :: rest =>
    if fails conn then
      Effect.write conn message :: Effect.close conn :: deliveries fails message rest
    else Effect.write conn message :: deliveries fails message rest


/-- The messages to a connection that a log records, in order: the connection's
delivery log. -/
def received (conn : Conn) : List Effect → List Message
  | [] => []
  | Effect.write c message :: rest =>
    if c = conn then message :: received conn rest else received conn rest
  | Effect.close _ :: rest => received conn rest

/-! ## JSON values and `encoding/json`

The two handlers decode with `json.Unmarshal`. The syntax of JSON, from bytes
to a value, is taken as a parameter `decode` of the handlers (`none` for
bytes that are not one well-formed JSON value); how a value is stored into
a Go map or struct is embedded here. -/

/-- A JSON value. A number keeps its literal. -/
inductive JSONValue where
  | null
  | bool (b : Bool)
  | number (literal : String)
  | string (s : String)
  | array (items : List JSONValue)
  | object (members : List (String × JSONValue))

/-- The index expression `m[key]` on the map decoded from the members of a JSON
object: a later member with the same key replaces an earlier one. -/
def lookup (members : List (String × JSONValue)) (key : String) : Option JSONValue :=
  match members with
  | [] => none
  | (k, v) :: rest =>
    match lookup rest key with
    | some w => some w
    | none => if k = key then some v else none

/-- The type assertion `x.(string)` on an element of `map[string]interface{}`:
it holds for a JSON string only (a missing key and a JSON null give a nil
interface, the other values a `bool`, `float64`, slice or map). -/
def asString : Option JSONValue → Option String
  | some (JSONValue.string s) => some s
  | _ => none

/-- The power `base ^ n`, by recursion on the exponent. -/
def natPow (base : Nat) : Nat → Nat
  | 0 => 1
  | n + 1 => natPow base n * base

/-- The least magnitude that `strconv.ParseFloat(s, 64)` rounds to infinity:
`2^1024 - 2^970`, halfway between the largest `float64` and `2^1024` (the tie
rounds to the even neighbour, which is `2^1024`). -/
def float64Overflow : Nat := (2 ^ 54 - 1) * natPow 2 970

/-- The exponent part of a JSON number literal: nothing, or `e` or `E`, an
optional sign and at least one digit. -/
def exponentOf (cs : List Char) : Option Int :=
  match cs with
  | [] => some 0
  | e :: rest =>
    if e = 'e' ∨ e = 'E' then
      match rest with
      | [] => none
      | s :: ds =>
        if s = '-' then
          if !ds.isEmpty && ds.all Hlc.isDigit then some (-(Hlc.digitsVal ds : Int)) else none
        else if s = '+' then
          if !ds.isEmpty && ds.all Hlc.isDigit then some (Hlc.digitsVal ds : Int) else none
        else if (s :: ds).all Hlc.isDigit then some (Hlc.digitsVal (s :: ds) : Int) else none
    else none

/-- The magnitude of a JSON number literal as a pair `(m, e)` standing for
`m * 10^e`: an optional minus sign, the digits of the integer part, an optional
point with the digits of the fraction, an optional exponent part. -/
def decimalOf (cs : List Char) : Option (Nat × Int) :=
  let body := match cs with
    | '-' :: rest => rest
    | _ => cs
  let whole := body.takeWhile Hlc.isDigit
  if whole.isEmpty then none
  else
    match body.dropWhile Hlc.isDigit with
    | '.' :: more =>
      let frac := more.takeWhile Hlc.isDigit
      if frac.isEmpty then none
      else (exponentOf (more.dropWhile Hlc.isDigit)).map
        (fun e => (Hlc.digitsVal (whole ++ frac), e - (frac.length : Int)))
    | rest => (exponentOf rest).map (fun e => (Hlc.digitsVal whole, e))

/-- Whether `strconv.ParseFloat(literal, 64)` succeeds on a JSON number
literal: the nearest `float64` is finite, that is, the magnitude is below
`float64Overflow` (a magnitude too small for a `float64` rounds to zero without
an error). -/
def fitsFloat64 (literal : List Char) : Bool :=
  match decimalOf literal with
  | none => false
  | some (m, e) => decide (m * natPow 10 e.toNat < float64Overflow * natPow 10 (-e).toNat)

mutual
/-- Whether a JSON value converts to an `interface{}` without an error
(`valueInterface` of the decoder): every number literal in it, at any depth,
must convert to a `float64` (`convertNumber`). -/
def JSONValue.convertible : JSONValue → Bool
  | JSONValue.number literal => fitsFloat64 literal.data
  | JSONValue.array items => convertibleItems items
  | JSONValue.object members => convertibleMembers members
  | _ => true
/-- The elements of an array convert (`arrayInterface`). -/
def convertibleItems : List JSONValue → Bool
  | [] => true
  | v :: rest => v.convertible && convertibleItems rest
/-- The member values of an object convert (`objectInterface`). -/
def convertibleMembers : List (String × JSONValue) → Bool
  | [] => true
  | (_, v) :: rest => v.convertible && convertibleMembers rest
end

/-- The call `json.Unmarshal(message, &envelope)` into a `map[string]interface{}`:
an object gives its map, provided every number in it, at any depth, converts
to a `float64` (otherwise the call returns an `UnmarshalTypeError`); `null`
leaves the map nil (every lookup misses); any other value and malformed bytes
are an error. -/
def unmarshalEnvelope : Option JSONValue → Option (List (String × JSONValue))
  | some (JSONValue.object members) => if convertibleMembers members then some members else none
  | some JSONValue.null => some []
  | _ => none

/-- The case folding under which `encoding/json` matches a key to a field
name: ASCII letters without their case, the Kelvin sign as `k`, the long s as
`s`. -/
def foldRune (c : Char) : Char :=
  if 'A' ≤ c ∧ c ≤ 'Z' then Char.ofNat (c.toNat + 32)
  else if c = Char.ofNat 0x212A then 'k'
  else if c = Char.ofNat 0x017F then 's'
  else c

/-- The field of a struct, by its JSON name, that a key of the object is
stored into: the field of that exact name, else a field whose name is equal
under case folding, else none (the member is skipped). -/
def findField (names : List String) (key : String) : Option String :=
  match names.find? (fun n => n = key) with
  | some n => some n
  | none => names.find? (fun n => n.data.map foldRune = key.data.map foldRune)

/-- A JSON value stored into a field of type `string`: a string is stored,
`null` leaves the field as it is, any other value is a type error. -/
def storeString (v : JSONValue) (old : String) : Option String :=
  match v with
  | JSONValue.string s => some s
  | JSONValue.null => some old
  | _ => none

/-- A JSON value stored into a field of type `bool`. -/
def storeBool (v : JSONValue) (old : Bool) : Option Bool :=
  match v with
  | JSONValue.bool b => some b
  | JSONValue.null => some old
  | _ => none

/-- The integer a JSON number literal denotes for a field of type `int`
(`strconv.ParseInt(literal, 10, 64)`): an optional minus sign and decimal
digits only, within 64 bits. -/
def intOfLiteral (literal : List Char) : Option Int :=
  match literal with
  | [] => none
  | c :: cs =>
    if c = '-' then
      if !cs.isEmpty && cs.all Hlc.isDigit && Hlc.digitsVal cs ≤ 2 ^ 63
      then some (-(Hlc.digitsVal cs : Int)) else none
    else
      if (c :: cs).all Hlc.isDigit && Hlc.digitsVal (c :: cs) < 2 ^ 63
      then some (Hlc.digitsVal (c :: cs) : Int) else none

/-- A JSON value stored into a field of type `int`. -/
def storeInt (v : JSONValue) (old : Int) : Option Int :=
  match v with
  | JSONValue.number literal => intOfLiteral literal.data
  | JSONValue.null => some old
  | _ => none

/-- The members of a JSON object stored one after the other into a struct;
`none` when a member is a type error for its field (`json.Unmarshal` then
returns an `UnmarshalTypeError`). -/
def storeAll {α : Type} (store : α → String → JSONValue → Option α) :
    List (String × JSONValue) → α → Option α
  | [], a => some a
  | (k, v) :: rest, a =>
    match store a k v with
    | some b => storeAll store rest b
    | none => none

/-- The call `json.Unmarshal` of a value into a struct that starts as `zero`: an
object is stored member by member, `null` changes nothing, any other value is
an error; so are malformed or missing bytes (`none`). -/
def unmarshalStruct {α : Type} (store : α → String → JSONValue → Option α) (zero : α) :
    Option JSONValue → Option α
  | some (JSONValue.object members) => storeAll store members zero
  | some JSONValue.null => some zero
  | _ => none

/-! ## The types of `internal/protocol/types.go` -/

/-- The constant `OpInsertTask`. -/
def OpInsertTask : String := "INSERT_TASK"

/-- The constant `OpUpdateTask`. -/
def OpUpdateTask : String := "UPDATE_TASK"

/-- The constant `OpDeleteTask`. -/
def OpDeleteTask : String := "DELETE_TASK"

/-- The constant `OpBatchUpdate`. -/
def OpBatchUpdate : String := "BATCH_UPDATE"

/-- The constant `OpCreateTag`. -/
def OpCreateTag : String := "CREATE_TAG"

/-- The constant `OpDeleteTag`. -/
def OpDeleteTag : String := "DELETE_TAG"

/-- The struct `Operation`; its field `Type` is `OpType` here, `Type` being a
keyword. `Data` is a `json.RawMessage`: the JSON text of the member `data`,
held as the value it denotes, `none` while it is nil (no member `data` was
stored). -/
structure Operation where
  OpType : String := ""
  SchemaVersion : Int := 0
  Timestamp : String := ""
  ActorID : String := ""
  Data : Option JSONValue := none

/-- The struct `ProtocolTask`. -/
structure ProtocolTask where
  ID : String := ""
  RowID : String := ""
  Start : String := ""
  End : String := ""
  Name : String := ""
  IsDeleted : Bool := false
  deriving DecidableEq, Repr

/-- The struct `ProtocolTag`. -/
structure ProtocolTag where
  ID : String := ""
  Name : String := ""
  MerkleRoot : String := ""
  Timestamp : String := ""
  IsDeleted : Bool := false
  deriving DecidableEq, Repr

/-- One member of a JSON object stored into an `Operation`, by the `json` tags
of its fields. -/
def Operation.store (op : Operation) (key : String) (v : JSONValue) : Option Operation :=
  match findField ["type", "schemaVersion", "timestamp", "actorId", "data"] key with
  | none => some op
  | some f =>
    if f = "type" then (storeString v op.OpType).map fun s => { op with OpType := s }
    else if f = "schemaVersion" then
      (storeInt v op.SchemaVersion).map fun n => { op with SchemaVersion := n }
    else if f = "timestamp" then
      (storeString v op.Timestamp).map fun s => { op with Timestamp := s }
    else if f = "actorId" then (storeString v op.ActorID).map fun s => { op with ActorID := s }
    else some { op with Data := some v }

/-- One member of a JSON object stored into a `ProtocolTask`. -/
def ProtocolTask.store (t : ProtocolTask) (key : String) (v : JSONValue) :
    Option ProtocolTask :=
  match findField ["id", "rowId", "start", "end", "name", "isDeleted"] key with
  | none => some t
  | some f =>
    if f = "id" then (storeString v t.ID).map fun s => { t with ID := s }
    else if f = "rowId" then (storeString v t.RowID).map fun s => { t with RowID := s }
    else if f = "start" then (storeString v t.Start).map fun s => { t with Start := s }
    else if f = "end" then (storeString v t.End).map fun s => { t with End := s }
    else if f = "name" then (storeString v t.Name).map fun s => { t with Name := s }
    else (storeBool v t.IsDeleted).map fun b => { t with IsDeleted := b }

/-- One member of a JSON object stored into a `ProtocolTag`. -/
def ProtocolTag.store (t : ProtocolTag) (key : String) (v : JSONValue) :
    Option ProtocolTag :=
  match findField ["id", "name", "merkleRoot", "timestamp", "isDeleted"] key with
  | none => some t
  | some f =>
    if f = "id" then (storeString v t.ID).map fun s => { t with ID := s }
    else if f = "name" then (storeString v t.Name).map fun s => { t with Name := s }
    else if f = "merkleRoot" then
      (storeString v t.MerkleRoot).map fun s => { t with MerkleRoot := s }
    else if f = "timestamp" then
      (storeString v t.Timestamp).map fun s => { t with Timestamp := s }
    else (storeBool v t.IsDeleted).map fun b => { t with IsDeleted := b }

/-- The call `json.Unmarshal(body, &op)` of `handleValidateOp`. -/
def unmarshalOperation (v : Option JSONValue) : Option Operation :=
  unmarshalStruct Operation.store {} v

/-- The call `json.Unmarshal(op.Data, &task)`; a nil `Data` is an error. -/
def unmarshalTask (data : Option JSONValue) : Option ProtocolTask :=
  unmarshalStruct ProtocolTask.store {} data

/-- The call `json.Unmarshal(op.Data, &tag)`; a nil `Data` is an error. -/
def unmarshalTag (data : Option JSONValue) : Option ProtocolTag :=
  unmarshalStruct ProtocolTag.store {} data

/-! ## The session handler, `handleWebSocket` -/

/-- The two responses the session handler writes on its own connection, each
the `json.Marshal` of a map: `SUBSCRIBE_SUCCESS` with its `channel`, and
`MERKLE_ROOT` with the `root` of its `data`, its `timestamp` and its `actorId`. -/
inductive Response where
  | subscribeSuccess (channel : String)
  | merkleRoot (root : String) (timestamp : String) (actorId : String)
  deriving DecidableEq, Repr

/-- What the session handler does to the outside while it serves its
connection: it registers with the hub, writes a response on its own
connection (`conn.WriteMessage`), submits a message to the hub
(`hub.broadcast <- message`), unregisters. -/
inductive Action where
  | register
  | reply (response : Response)
  | submit (message : Message)
  | unregister
  deriving DecidableEq, Repr

/-- How the body of the read loop ends on one message: it reaches the next
turn of the loop (by `continue` or by the end of the `switch`) having done
the actions, or it panics. -/
inductive Outcome where
  | next (actions : List Action)
  | panic
  deriving DecidableEq, Repr

/-- The response to `GET_MERKLE_ROOT`: the dummy root, the timestamp
`hlc.Zero().String()` and the actor `server`. -/
def merkleRootResponse : Response :=
  Response.merkleRoot "hash-empty-tree" Hlc.Zero.String "server"

/-- The message types of the third case of the `switch`. -/
def causalTypes : List String :=
  ["BATCH_UPDATE", "INSERT_TASK", "UPDATE_TASK", "DELETE_TASK", "CREATE_TAG", "DELETE_TAG"]

/-- The message types of the fourth case of the `switch`. -/
def ephemeralTypes : List String := ["PRESENCE_UPDATE", "CURSOR_MOVE", "GHOST_UPDATE"]

/-- The body of the read loop of `handleWebSocket` on a message that was read,
lines 139 to 189. In the case `subscribe` the type assertion
`envelope["channel"].(string)` has no `ok` result: it panics when the member
is missing or is not a string. -/
def handleMessage (decode : Message → Option JSONValue) (message : Message) : Outcome :=
  match unmarshalEnvelope (decode message) with
  | none => Outcome.next []
  | some envelope =>
    let msgType := (asString (lookup envelope "type")).getD ""
    if msgType = "subscribe" then
      match asString (lookup envelope "channel") with
      | some channel => Outcome.next [Action.reply (Response.subscribeSuccess channel)]
      | none => Outcome.panic
    else if msgType = "GET_MERKLE_ROOT" then Outcome.next [Action.reply merkleRootResponse]
    else if msgType ∈ causalTypes then
      match asString (lookup envelope "timestamp") with
      | some ts =>
        match Hlc.Parse ts with
        | Except.error _ => Outcome.next []
        | Except.ok _ => Outcome.next [Action.submit message]
      | none => Outcome.next [Action.submit message]
    else if msgType ∈ ephemeralTypes then Outcome.next [Action.submit message]
    else Outcome.next []

/-- What `conn.ReadMessage` returns: a message, or an error. -/
inductive Read where
  | message (m : Message)
  | error

/-- How the read loop stands after the reads given: it has ended on a read
error, it has ended in a panic, or it is waiting for the next read. -/
inductive LoopEnd where
  | readError
  | panicked
  | waiting
  deriving DecidableEq, Repr

/-- The read loop of `handleWebSocket` on the results of its reads, in order:
the actions it does and how it stands. -/
def readLoop (decode : Message → Option JSONValue) : List Read → List Action × LoopEnd
  | [] => ([], LoopEnd.waiting)
  | Read.error :: _ => ([], LoopEnd.readError)
  | Read.message m :: rest =>
    match handleMessage decode m with
    | Outcome.next actions => (actions ++ (readLoop decode rest).1, (readLoop decode rest).2)
    | Outcome.panic => ([], LoopEnd.panicked)

/-- Go's `handleWebSocket` after a successful upgrade: the register, the read
loop, and the deferred unregister once the loop has ended, by `break` or by
a panic. -/
def handleWebSocket (decode : Message → Option JSONValue) (reads : List Read) : List Action :=
  Action.register :: (readLoop decode reads).1
    ++ (if (readLoop decode reads).2 = LoopEnd.waiting then [] else [Action.unregister])

/-! ## The standalone validator, `handleValidateOp` -/

/-- The responses of `handleValidateOp`: `200 Operation Valid`, or one of its
calls of `http.Error`, in the order of the source. The timestamp rejection
carries what its message is formatted from, `op.Timestamp` and the error of
`hlc.Parse`. -/
inductive Verdict where
  | valid
  | methodNotAllowed
  | failedToReadBody
  | jsonDecodeError
  | invalidTimestamp (timestamp : String) (err : Hlc.ParseError)
  | invalidTaskData
  | taskIDRequired
  | invalidTagData
  | tagMerkleRootRequired
  deriving DecidableEq, Repr

/-- Lines 212 to 256 of `handleValidateOp`, on the decoded operation: the
schema version, the timestamp, the payload by type. -/
def validateOp (op : Operation) : Verdict :=
  let op := if op.SchemaVersion < 1 then { op with SchemaVersion := 1 } else op
  match Hlc.Parse op.Timestamp with
  | Except.error err => Verdict.invalidTimestamp op.Timestamp err
  | Except.ok _ =>
    if op.OpType = OpInsertTask ∨ op.OpType = OpUpdateTask then
      match unmarshalTask op.Data with
      | none => Verdict.invalidTaskData
      | some task => if task.ID = "" then Verdict.taskIDRequired else Verdict.valid
    else if op.OpType = OpCreateTag then
      match unmarshalTag op.Data with
      | none => Verdict.invalidTagData
      | some tag => if tag.MerkleRoot = "" then Verdict.tagMerkleRootRequired else Verdict.valid
    else Verdict.valid

/-- Go's `handleValidateOp` on a request: its method and its body, `none` when
reading the body fails. -/
def handleValidateOp (decode : Message → Option JSONValue) (method : String)
    (body : Option Message) : Verdict :=
  if method ≠ "POST" then Verdict.methodNotAllowed
  else
    match body with
    | none => Verdict.failedToReadBody
    | some b =>
      match unmarshalOperation (decode b) with
      | none => Verdict.jsonDecodeError
      | some op => validateOp op

/-- An operation with the given type, timestamp and data, its other fields
zero. -/
def Operation.of (opType timestamp : String) (data : Option JSONValue) : Operation :=
  { OpType := opType, Timestamp := timestamp, Data := data }

/-- The well-formed timestamp of the examples. -/
def exampleTimestamp : String := "2023-10-27T10:00:00.000Z-0000-deviceA"

/-- A JSON value is an object with a member of the given key that is a
non-empty string. -/
def hasNonEmptyString (key : String) : Option JSONValue → Bool
  | some (JSONValue.object members) =>
    match asString (lookup members key) with
    | some s => s != ""
    | none => false
  | _ => false

end Server

namespace Hlc

/-! # Theorems

### The order of `Compare` -/

theorem strLess_irrefl (a : List Char) : strLess a a = false := by
  induction a with
  | nil => rfl
  | cons x xs ih => simp [strLess, ih]

theorem strLess_asymm : ∀ (a b : List Char), strLess a b = true → strLess b a = false
  | [], [], _ => rfl
  | [], _ :: _, _ => rfl
  | _ :: _, [], h => by simp [strLess] at h
  | x :: xs, y :: ys, h => by
    simp only [strLess] at h ⊢
    by_cases hxy : x < y
    · have hyx : ¬ y < x := not_lt_of_gt hxy
      simp [hyx, hxy]
    · by_cases hyx : y < x
      · simp [hxy, hyx] at h
      · simp only [hxy, hyx, if_false] at h ⊢
        exact strLess_asymm xs ys h

theorem strLess_connex : ∀ (a b : List Char), strLess a b = false → strLess b a = false → a = b
  | [], [], _, _ => rfl
  | [], _ :: _, h, _ => by simp [strLess] at h
  | _ :: _, [], _, h => by simp [strLess] at h
  | x :: xs, y :: ys, h1, h2 => by
    simp only [strLess] at h1 h2
    by_cases hxy : x < y
    · simp [hxy] at h1
    · by_cases hyx : y < x
      · simp [hyx] at h2
      · simp only [hxy, hyx, if_false] at h1 h2
        have hx : x = y := le_antisymm (not_lt.mp hyx) (not_lt.mp hxy)
        rw [hx, strLess_connex xs ys h1 h2]

theorem strLess_trans : ∀ (a b c : List Char), strLess a b = true → strLess b c = true →
    strLess a c = true
  | [], [], _, h, _ => by simp [strLess] at h
  | [], _ :: _, [], _, h => by simp [strLess] at h
  | [], _ :: _, _ :: _, _, _ => rfl
  | _ :: _, [], _, h, _ => by simp [strLess] at h
  | _ :: _, _ :: _, [], _, h => by simp [strLess] at h
  | x :: xs, y :: ys, z :: zs, h1, h2 => by
    simp only [strLess] at h1 h2 ⊢
    by_cases hxy : x < y
    · by_cases hyz : y < z
      · simp [lt_trans hxy hyz]
      · by_cases hzy : z < y
        · simp [hyz, hzy] at h2
        · have hy : y = z := le_antisymm (not_lt.mp hzy) (not_lt.mp hyz)
          subst hy
          simp [hxy]
    · by_cases hyx : y < x
      · simp [hxy, hyx] at h1
      · have hx : x = y := le_antisymm (not_lt.mp hyx) (not_lt.mp hxy)
        subst hx
        simp only [hxy, if_false] at h1
        by_cases hxz : x < z
        · simp [hxz]
        · by_cases hzx : z < x
          · simp [hxz, hzx] at h2
          · simp only [hxz, hzx, if_false] at h2 ⊢
            exact strLess_trans xs ys zs h1 h2

theorem strLess_iff_lex : ∀ (a b : List Char),
    strLess a b = true ↔ List.Lex (fun x y : Char => x < y) a b
  | [], [] => by simp [strLess]
  | [], _ :: _ => by simp [strLess, List.Lex.nil]
  | _ :: _, [] => by simp [strLess]
  | x :: xs, y :: ys => by
    simp only [strLess]
    by_cases hxy : x < y
    · simp [hxy, List.Lex.rel hxy]
    · by_cases hyx : y < x
      · simp only [hxy, hyx, if_false, if_true]
        constructor
        · intro h; cases h
        · intro h
          cases h with
          | cons h => exact absurd hyx (lt_irrefl _)
          | rel h => exact absurd h hxy
      · have hx : x = y := le_antisymm (not_lt.mp hyx) (not_lt.mp hxy)
        subst hx
        simp only [hxy, if_false]
        rw [strLess_iff_lex xs ys]
        constructor
        · intro h; exact List.Lex.cons h
        · intro h
          cases h with
          | cons h => exact h
          | rel h => exact absurd h hxy

theorem keyLess_iff (a b : HLC) :
    keyLess a.key b.key ↔
      a.Millis < b.Millis ∨ (a.Millis = b.Millis ∧
        (a.Counter < b.Counter ∨ (a.Counter = b.Counter ∧
          strLess a.NodeID.data b.NodeID.data = true))) := by
  simp only [keyLess, HLC.key, Prod.lex_def, strLess_iff_lex]

theorem HLC.ext_of_fields (a b : HLC) (h1 : a.Millis = b.Millis) (h2 : a.Counter = b.Counter)
    (h3 : a.NodeID.data = b.NodeID.data) : a = b := by
  cases a with
  | mk m c n =>
    cases b with
    | mk m2 c2 n2 =>
      cases n
      cases n2
      simp_all

theorem compare_eq_neg_one_iff (a b : HLC) :
    a.Compare b = -1 ↔ keyLess a.key b.key := by
  rw [keyLess_iff]
  unfold HLC.Compare
  split_ifs with h1 h2 h3 h4 h5 h6 <;> simp_all <;> omega

theorem compare_eq_one_iff (a b : HLC) :
    a.Compare b = 1 ↔ keyLess b.key a.key := by
  rw [keyLess_iff]
  unfold HLC.Compare
  split_ifs with h1 h2 h3 h4 h5 h6
  · simp; omega
  · simp; omega
  · simp; omega
  · simp
    right
    constructor
    · omega
    · left; omega
  · have := strLess_asymm _ _ h5
    simp [this]
    omega
  · simp
    right
    refine ⟨by omega, Or.inr ⟨by omega, h6⟩⟩
  · have h6f : strLess b.NodeID.data a.NodeID.data = false := by simpa using h6
    simp
    exact ⟨by omega, fun _ => ⟨by omega, fun _ => h6f⟩⟩

theorem compare_eq_zero_iff (a b : HLC) : a.Compare b = 0 ↔ a = b := by
  constructor
  · unfold HLC.Compare
    split_ifs with h1 h2 h3 h4 h5 h6
    · simp
    · simp
    · simp
    · simp
    · simp
    · simp
    · intro _
      apply HLC.ext_of_fields
      · omega
      · omega
      · apply strLess_connex
        · simpa using h5
        · simpa using h6
  · rintro rfl
    unfold HLC.Compare
    simp [strLess_irrefl]

theorem compare_values (a b : HLC) : a.Compare b = -1 ∨ a.Compare b = 0 ∨ a.Compare b = 1 := by
  unfold HLC.Compare
  split_ifs <;> simp

theorem compare_antisymm (a b : HLC) : a.Compare b = -(b.Compare a) := by
  rcases compare_values a b with h | h | h
  · have := (compare_eq_one_iff b a).mpr ((compare_eq_neg_one_iff a b).mp h)
    omega
  · have := (compare_eq_zero_iff b a).mpr ((compare_eq_zero_iff a b).mp h).symm
    omega
  · have := (compare_eq_neg_one_iff b a).mpr ((compare_eq_one_iff a b).mp h)
    omega

theorem keyLess_trans (a b c : HLC) (h1 : keyLess a.key b.key) (h2 : keyLess b.key c.key) :
    keyLess a.key c.key := by
  rw [keyLess_iff] at *
  rcases h1 with h1 | ⟨e1, h1 | ⟨f1, h1⟩⟩ <;> rcases h2 with h2 | ⟨e2, h2 | ⟨f2, h2⟩⟩
  · left; omega
  · left; omega
  · left; omega
  · left; omega
  · right; exact ⟨by omega, Or.inl (by omega)⟩
  · right; exact ⟨by omega, Or.inl (by omega)⟩
  · left; omega
  · right; exact ⟨by omega, Or.inl (by omega)⟩
  · right; exact ⟨by omega, Or.inr ⟨by omega, strLess_trans _ _ _ h1 h2⟩⟩

theorem compare_le_trans (a b c : HLC) (h1 : a.Compare b ≤ 0) (h2 : b.Compare c ≤ 0) :
    a.Compare c ≤ 0 := by
  rcases compare_values a b with e1 | e1 | e1
  · rcases compare_values b c with e2 | e2 | e2
    · have := (compare_eq_neg_one_iff a c).mpr
        (keyLess_trans a b c ((compare_eq_neg_one_iff a b).mp e1)
          ((compare_eq_neg_one_iff b c).mp e2))
      omega
    · have := (compare_eq_zero_iff b c).mp e2
      subst this
      omega
    · omega
  · have := (compare_eq_zero_iff a b).mp e1
    subst this
    exact h2
  · omega

/-- C2: `HLC.Compare` is a total order on HLC values: `Compare(a,a) = 0`,
`Compare(a,b) = -Compare(b,a)`, and from `Compare(a,b) <= 0` and
`Compare(b,c) <= 0` follows `Compare(a,c) <= 0`. -/
theorem compare_total_order (a b c : HLC) :
    a.Compare a = 0 ∧ a.Compare b = -(b.Compare a) ∧
      (a.Compare b ≤ 0 → b.Compare c ≤ 0 → a.Compare c ≤ 0) :=
  ⟨(compare_eq_zero_iff a a).mpr rfl, compare_antisymm a b, compare_le_trans a b c⟩

/-- C3: `HLC.Compare` is the lexicographic order on the key
`(Millis, Counter, NodeID)`: it is `-1` exactly when the key of `a` is
lexicographically below that of `b`, `1` exactly when it is above, and `0`
exactly when `a` and `b` are the same triple; with equal `Millis` and
`Counter` and different `NodeID` it is never `0` and has the sign of the
lexicographic comparison of the node identifiers. -/
theorem compare_lexicographic (a b : HLC) :
    (a.Compare b = -1 ↔ keyLess a.key b.key) ∧
    (a.Compare b = 1 ↔ keyLess b.key a.key) ∧
    (a.Compare b = 0 ↔ a = b) ∧
    (a.Millis = b.Millis → a.Counter = b.Counter → a.NodeID ≠ b.NodeID →
      a.Compare b ≠ 0 ∧
      (a.Compare b = -1 ↔ List.Lex (fun x y : Char => x < y) a.NodeID.data b.NodeID.data) ∧
      (a.Compare b = 1 ↔ List.Lex (fun x y : Char => x < y) b.NodeID.data a.NodeID.data)) := by
  refine ⟨compare_eq_neg_one_iff a b, compare_eq_one_iff a b, compare_eq_zero_iff a b, ?_⟩
  intro hm hc hn
  refine ⟨?_, ?_, ?_⟩
  · intro h0
    exact hn (congrArg HLC.NodeID ((compare_eq_zero_iff a b).mp h0))
  · rw [compare_eq_neg_one_iff, keyLess_iff, ← strLess_iff_lex]
    constructor
    · rintro (h | ⟨-, h | ⟨-, h⟩⟩)
      · omega
      · omega
      · exact h
    · intro h
      exact Or.inr ⟨hm, Or.inr ⟨hc, h⟩⟩
  · rw [compare_eq_one_iff, keyLess_iff, ← strLess_iff_lex]
    constructor
    · rintro (h | ⟨-, h | ⟨-, h⟩⟩)
      · omega
      · omega
      · exact h
    · intro h
      exact Or.inr ⟨hm.symm, Or.inr ⟨hc.symm, h⟩⟩

/-! ### The calendar -/

/-- The days before the first day of `year`, counted from 0001-01-01. -/
theorem daysFromCivil_jan1 (year : Int) :
    daysFromCivil year 1 1 = 365 * (year - 1) + (year - 1) / 4 - (year - 1) / 100 + (year - 1) / 400 := by
  simp only [daysFromCivil, daysBefore]
  simp
  omega

theorem isLeap_iff (year : Int) :
    isLeap year = true ↔ year % 4 = 0 ∧ (year % 100 ≠ 0 ∨ year % 400 = 0) := by
  simp [isLeap]

/-- The cycles `yearDay` cuts off: the numbers of whole 400-, 100-, 4- and
1-year cycles, their bounds, and when the day 365 of a year can occur. -/
theorem yearDay_cycles (days : Int) :
    ∃ b c e f : Int,
      (yearDay days).1 = 400 * b + 100 * c + 4 * e + f + 1 ∧
      (yearDay days).2 = days - (146097 * b + 36524 * c + 1461 * e + 365 * f) ∧
      0 ≤ c ∧ c ≤ 3 ∧ 0 ≤ e ∧ e ≤ 24 ∧ 0 ≤ f ∧ f ≤ 3 ∧
      0 ≤ (yearDay days).2 ∧
      ((yearDay days).2 ≤ 364 ∨ ((yearDay days).2 = 365 ∧ f = 3 ∧ (e < 24 ∨ c = 3))) := by
  simp only [yearDay]
  generalize hb : days / 146097 = b
  generalize hc : (days - 146097 * b) / 36524 = c
  generalize hd : c / 4 = d
  generalize he : (days - 146097 * b - 36524 * (c - d)) / 1461 = e
  generalize hf : (days - 146097 * b - 36524 * (c - d) - 1461 * e) / 365 = f
  generalize hg : f / 4 = g
  have hc4 : c = 0 ∨ c = 1 ∨ c = 2 ∨ c = 3 ∨ c = 4 := by omega
  have hf4 : f = 0 ∨ f = 1 ∨ f = 2 ∨ f = 3 ∨ f = 4 := by omega
  refine ⟨b, c - d, e, f - g, rfl, by ring, ?_⟩
  rcases hc4 with h | h | h | h | h <;> rcases hf4 with h' | h' | h' | h' | h' <;>
    subst h h' <;> omega

theorem yearDay_spec (days : Int) :
    0 ≤ (yearDay days).2 ∧
    (yearDay days).2 < (if isLeap (yearDay days).1 then 366 else 365) ∧
    daysFromCivil (yearDay days).1 1 1 + (yearDay days).2 = days := by
  obtain ⟨b, c, e, f, hy, hd, hc0, hc3, he0, he24, hf0, hf3, h0, hlast⟩ := yearDay_cycles days
  rw [daysFromCivil_jan1]
  refine ⟨h0, ?_, ?_⟩
  · by_cases hl : isLeap (yearDay days).1 = true
    · rw [if_pos hl]; omega
    · rw [if_neg hl]
      rw [isLeap_iff] at hl
      rcases hlast with h | ⟨h1, h2, h3⟩
      · omega
      · exfalso
        apply hl
        omega
  · rw [hy, hd]
    omega

theorem monthOf_spec (day : Int) (h0 : 0 ≤ day) (h1 : day < 365) :
    1 ≤ (monthOf day).1 ∧ (monthOf day).1 ≤ 12 ∧
      (monthOf day).2 = day - daysBefore ((monthOf day).1 - 1) + 1 ∧
      daysBefore ((monthOf day).1 - 1) ≤ day ∧ day < daysBefore (monthOf day).1 := by
  obtain ⟨k, hk⟩ : ∃ k : Nat, day / 31 = (k : Int) := ⟨(day / 31).toNat, by omega⟩
  have hk11 : k ≤ 11 := by omega
  unfold monthOf
  simp only []
  rw [hk, Int.toNat_ofNat]
  interval_cases k <;> simp only [daysBefore, Nat.reduceAdd] <;> split_ifs with hge <;>
    simp only [daysBefore, Nat.reduceAdd, Nat.reduceSub, Nat.reduceLeDiff, Nat.one_le_ofNat,
      le_refl, true_and] <;> omega

theorem daysFromCivil_split (year : Int) (month : Nat) (day : Int) :
    daysFromCivil year month day =
      daysFromCivil year 1 1 + daysBefore (month - 1)
        + (if isLeap year = true ∧ 3 ≤ month then 1 else 0) + (day - 1) := by
  simp only [daysFromCivil, daysBefore]
  by_cases hl : isLeap year = true <;> by_cases hm : 3 ≤ month <;> simp [hl, hm]

theorem monthDay_spec (year : Int) (yday : Int) (h0 : 0 ≤ yday)
    (h1 : yday < (if isLeap year then 366 else 365)) :
    1 ≤ (monthDay (isLeap year) yday).1 ∧ (monthDay (isLeap year) yday).1 ≤ 12 ∧
      1 ≤ (monthDay (isLeap year) yday).2 ∧
      (monthDay (isLeap year) yday).2 ≤ daysIn (monthDay (isLeap year) yday).1 year ∧
      daysBefore ((monthDay (isLeap year) yday).1 - 1)
        + (if isLeap year = true ∧ 3 ≤ (monthDay (isLeap year) yday).1 then 1 else 0)
        + ((monthDay (isLeap year) yday).2 - 1) = yday := by
  unfold monthDay daysIn
  by_cases hl : isLeap year = true
  · simp only [hl, if_true, Bool.true_and, decide_eq_true_eq] at h1 ⊢
    by_cases h59 : yday = 31 + 29 - 1
    · subst h59
      simp [daysBefore]
    · rw [if_neg h59]
      by_cases hgt : yday > 31 + 29 - 1
      · rw [if_pos hgt]
        obtain ⟨m1, m12, hd, hlo, hhi⟩ := monthOf_spec (yday - 1) (by omega) (by omega)
        generalize (monthOf (yday - 1)).1 = m at *
        generalize (monthOf (yday - 1)).2 = d at *
        interval_cases m <;> simp [daysBefore] at * <;> omega
      · rw [if_neg hgt]
        obtain ⟨m1, m12, hd, hlo, hhi⟩ := monthOf_spec yday (by omega) (by omega)
        generalize (monthOf yday).1 = m at *
        generalize (monthOf yday).2 = d at *
        interval_cases m <;> simp [daysBefore] at * <;> omega
  · simp only [hl, Bool.false_and, if_false, Bool.and_false, false_and] at h1 ⊢
    simp only [Bool.false_eq_true, if_false] at h1 ⊢
    obtain ⟨m1, m12, hd, hlo, hhi⟩ := monthOf_spec yday (by omega) (by omega)
    generalize (monthOf yday).1 = m at *
    generalize (monthOf yday).2 = d at *
    interval_cases m <;> simp [daysBefore] at * <;> omega

/-- The civil date of a day number is a date of the calendar, and
`daysFromCivil` takes it back to the day number. -/
theorem civilFromDays_spec (days : Int) :
    1 ≤ (civilFromDays days).2.1 ∧ (civilFromDays days).2.1 ≤ 12 ∧
      1 ≤ (civilFromDays days).2.2 ∧
      (civilFromDays days).2.2 ≤ daysIn (civilFromDays days).2.1 (civilFromDays days).1 ∧
      daysFromCivil (civilFromDays days).1 (civilFromDays days).2.1 (civilFromDays days).2.2
        = days := by
  obtain ⟨h0, h1, h2⟩ := yearDay_spec days
  obtain ⟨a, b, c, d, e⟩ := monthDay_spec (yearDay days).1 (yearDay days).2 h0 h1
  simp only [civilFromDays]
  refine ⟨a, b, c, d, ?_⟩
  rw [daysFromCivil_split]
  omega



theorem yearDay_year_range (days : Int) (hlo : -366 ≤ days) (hhi : days < 3652059) :
    0 ≤ (yearDay days).1 ∧ (yearDay days).1 ≤ 9999 := by
  obtain ⟨b, c, e, f, hy, hd, hc0, hc3, he0, he24, hf0, hf3, h0, hlast⟩ := yearDay_cycles days
  rw [hy]
  have hc4 : c = 0 ∨ c = 1 ∨ c = 2 ∨ c = 3 := by omega
  have hf4 : f = 0 ∨ f = 1 ∨ f = 2 ∨ f = 3 := by omega
  have hb : b < 0 ∨ (0 ≤ b ∧ b < 25) ∨ 25 ≤ b := by omega
  rcases hb with hb | hb | hb
  · rcases hc4 with h | h | h | h <;> rcases hf4 with h' | h' | h' | h' <;> subst h h' <;> omega
  · omega
  · omega

/-! ### Decimal digits -/

theorem isDigit_digitChar (d : Nat) (h : d < 10) : isDigit (digitChar d) = true := by
  interval_cases d <;> rfl

theorem digitVal_digitChar (d : Nat) (h : d < 10) : digitVal (digitChar d) = d := by
  interval_cases d <;> rfl

theorem isDot_digitChar (d : Nat) (h : d < 10) : isDot (digitChar d) = true := by
  interval_cases d <;> rfl

theorem decDigits_small (fuel n : Nat) (hf : n < fuel) (hn : n < 10) :
    decDigits fuel n = [digitChar n] := by
  cases fuel with
  | zero => omega
  | succ k => simp [decDigits, hn]

theorem decDigits_step (fuel n : Nat) (hf : n < fuel) (hn : 10 ≤ n) :
    decDigits fuel n = decDigits (fuel - 1) (n / 10) ++ [digitChar (n % 10)] := by
  cases fuel with
  | zero => omega
  | succ k =>
    have : ¬ n < 10 := by omega
    simp [decDigits, this]

theorem digitChar_zero : digitChar 0 = '0' := rfl

theorem appendInt_nat (n w : Nat) :
    appendInt (n : Int) w = zeroPad w (decDigits (n + 1) n) := by
  have : ¬ ((n : Int) < 0) := by omega
  simp [appendInt, this]

theorem appendInt_pad2 (n : Nat) (h : n < 100) : appendInt (n : Int) 2 = pad2 n := by
  rw [appendInt_nat]
  by_cases h1 : n < 10
  · rw [decDigits_small _ _ (by omega) h1]
    have : n / 10 = 0 := by omega
    have h2 : n % 10 = n := by omega
    simp [zeroPad, pad2, this, h2, digitChar_zero]
  · rw [decDigits_step _ _ (by omega) (by omega), decDigits_small _ _ (by omega) (by omega)]
    simp [zeroPad, pad2]

theorem appendInt_pad3 (n : Nat) (h : n < 1000) : appendInt (n : Int) 3 = pad3 n := by
  rw [appendInt_nat]
  by_cases h1 : n < 10
  · rw [decDigits_small _ _ (by omega) h1]
    have e1 : n / 100 = 0 := by omega
    have e2 : n / 10 % 10 = 0 := by omega
    have e3 : n % 10 = n := by omega
    simp [zeroPad, pad3, e1, e2, e3, digitChar_zero]
  · by_cases h2 : n < 100
    · rw [decDigits_step _ _ (by omega) (by omega), decDigits_small _ _ (by omega) (by omega)]
      have e1 : n / 100 = 0 := by omega
      have e2 : n / 10 % 10 = n / 10 := by omega
      simp [zeroPad, pad3, e1, e2, digitChar_zero]
    · rw [decDigits_step _ _ (by omega) (by omega), decDigits_step _ _ (by omega) (by omega),
        decDigits_small _ _ (by omega) (by omega)]
      have e1 : n / 10 / 10 = n / 100 := by omega
      simp [zeroPad, pad3, e1]

theorem appendInt_pad4 (n : Nat) (h : n < 10000) : appendInt (n : Int) 4 = pad4 n := by
  rw [appendInt_nat]
  by_cases h1 : n < 10
  · rw [decDigits_small _ _ (by omega) h1]
    have e0 : n / 1000 = 0 := by omega
    have e1 : n / 100 % 10 = 0 := by omega
    have e2 : n / 10 % 10 = 0 := by omega
    have e3 : n % 10 = n := by omega
    simp [zeroPad, pad4, e0, e1, e2, e3, digitChar_zero]
  · by_cases h2 : n < 100
    · rw [decDigits_step _ _ (by omega) (by omega), decDigits_small _ _ (by omega) (by omega)]
      have e0 : n / 1000 = 0 := by omega
      have e1 : n / 100 % 10 = 0 := by omega
      have e2 : n / 10 % 10 = n / 10 := by omega
      simp [zeroPad, pad4, e0, e1, e2, digitChar_zero]
    · by_cases h3 : n < 1000
      · rw [decDigits_step _ _ (by omega) (by omega), decDigits_step _ _ (by omega) (by omega),
          decDigits_small _ _ (by omega) (by omega)]
        have e0 : n / 1000 = 0 := by omega
        have e1 : n / 100 % 10 = n / 10 / 10 := by omega
        simp [zeroPad, pad4, e0, e1, digitChar_zero]
      · rw [decDigits_step _ _ (by omega) (by omega), decDigits_step _ _ (by omega) (by omega),
          decDigits_step _ _ (by omega) (by omega), decDigits_small _ _ (by omega) (by omega)]
        have e0 : n / 10 / 10 / 10 = n / 1000 := by omega
        have e1 : n / 10 / 10 % 10 = n / 100 % 10 := by omega
        simp [zeroPad, pad4, e0, e1]

/-! ### The canonical time text parses back -/

theorem getnum_pad2 (n : Nat) (h : n < 100) (fixed : Bool) (rest : List Char) :
    getnum (pad2 n ++ rest) fixed = some (n, rest) := by
  have h1 : n / 10 < 10 := by omega
  have h2 : n % 10 < 10 := by omega
  simp only [pad2, List.cons_append, List.nil_append, getnum, isDigit_digitChar _ h1,
    isDigit_digitChar _ h2, digitVal_digitChar _ h1, digitVal_digitChar _ h2, if_true]
  congr 2
  omega

theorem getYear_pad4 (n : Nat) (h : n < 10000) (rest : List Char) :
    getYear (pad4 n ++ rest) = some (n, rest) := by
  have h0 : n / 1000 < 10 := by omega
  have h1 : n / 100 % 10 < 10 := by omega
  have h2 : n / 10 % 10 < 10 := by omega
  have h3 : n % 10 < 10 := by omega
  simp only [pad4, List.cons_append, List.nil_append, getYear, isDigit_digitChar _ h0,
    isDigit_digitChar _ h1, isDigit_digitChar _ h2, isDigit_digitChar _ h3,
    digitVal_digitChar _ h0, digitVal_digitChar _ h1, digitVal_digitChar _ h2,
    digitVal_digitChar _ h3, Bool.and_self, if_true]
  congr 2
  omega

theorem getFraction_pad3 (f : Nat) (h : f < 1000) :
    getFraction ('.' :: (pad3 f ++ ['Z'])) = (f * 1000000, ['Z']) := by
  have h0 : f / 100 < 10 := by omega
  have h1 : f / 10 % 10 < 10 := by omega
  have h2 : f % 10 < 10 := by omega
  have hz : isDigit 'Z' = false := by decide
  simp only [pad3, List.cons_append, List.nil_append, getFraction, isDigit_digitChar _ h0,
    isDigit_digitChar _ h1, isDigit_digitChar _ h2, List.takeWhile, List.dropWhile, hz,
    parseNanoseconds, digitsVal, List.take, List.foldl, digitVal_digitChar _ h0,
    digitVal_digitChar _ h1, digitVal_digitChar _ h2, List.length]
  simp
  omega

theorem getFields_canonical (Y M D h mi s f : Nat) (hY : Y < 10000) (hM : M < 100)
    (hD : D < 100) (hh : h < 100) (hmi : mi < 100) (hs : s < 100) (hf : f < 1000) :
    getFields (canonicalTime Y M D h mi s f) =
      some { year := Y, month := M, day := D, hour := h, min := mi, sec := s,
             nsec := f * 1000000, zoneOffset := 0 } := by
  have hdate : getDate (canonicalTime Y M D h mi s f) =
      some (Y, M, D, pad2 h ++ (':' :: (pad2 mi ++ (':' :: (pad2 s ++ ('.' :: (pad3 f ++ ['Z']))))))) := by
    simp only [getDate, canonicalTime, getYear_pad4 Y hY, Option.bind_some, Option.some_bind,
      skip, if_true, getnum_pad2 M hM, getnum_pad2 D hD]
  have hclock : getClock (pad2 h ++ (':' :: (pad2 mi ++ (':' :: (pad2 s ++ ('.' :: (pad3 f ++ ['Z']))))))) =
      some (h, mi, s, '.' :: (pad3 f ++ ['Z'])) := by
    simp only [getClock, getnum_pad2 h hh, Option.bind_some, Option.some_bind,
      skip, if_true, getnum_pad2 mi hmi, getnum_pad2 s hs]
  simp only [getFields, hdate, hclock, Option.bind_some, Option.some_bind, getFraction_pad3 f hf]
  simp [getZone]

theorem daysIn_le (month : Nat) (year : Int) (h1 : 1 ≤ month) (h12 : month ≤ 12) :
    daysIn month year ≤ 31 := by
  unfold daysIn
  split_ifs
  · omega
  · interval_cases month <;> simp [daysBefore]

/-- Within the years 0000 to 9999 the formatted time is the canonical text of
fields that are in range and denote the same instant. -/
theorem format_canonical (ms : Int) (hlo : -62167219200000 ≤ ms) (hhi : ms < 253402300800000) :
    ∃ Y M D h mi s f : Nat,
      Y < 10000 ∧ M < 100 ∧ D < 100 ∧ h < 100 ∧ mi < 100 ∧ s < 100 ∧ f < 1000 ∧
      (UnixMilli ms).Format = canonicalTime Y M D h mi s f ∧
      Fields.inRange { year := Y, month := M, day := D, hour := h, min := mi, sec := s,
                       nsec := f * 1000000, zoneOffset := 0 } = true ∧
      Fields.toTime { year := Y, month := M, day := D, hour := h, min := mi, sec := s,
                      nsec := f * 1000000, zoneOffset := 0 } = UnixMilli ms := by
  have hdlo : -366 ≤ ms / 1000 / 86400 + unixEpochDay := by unfold unixEpochDay; omega
  have hdhi : ms / 1000 / 86400 + unixEpochDay < 3652059 := by unfold unixEpochDay; omega
  obtain ⟨hm1, hm12, hd1, hdin, hback⟩ := civilFromDays_spec (ms / 1000 / 86400 + unixEpochDay)
  have hyr := yearDay_year_range _ hdlo hdhi
  have hyeq : (civilFromDays (ms / 1000 / 86400 + unixEpochDay)).1
      = (yearDay (ms / 1000 / 86400 + unixEpochDay)).1 := rfl
  rw [← hyeq] at hyr
  have hd31 := daysIn_le _ (civilFromDays (ms / 1000 / 86400 + unixEpochDay)).1 hm1 hm12
  generalize hcv : civilFromDays (ms / 1000 / 86400 + unixEpochDay) = cv at *
  obtain ⟨y, m, d⟩ := cv
  simp only at hm1 hm12 hd1 hdin hback hyr hd31
  obtain ⟨Y, rfl⟩ : ∃ Y : Nat, y = (Y : Int) := ⟨y.toNat, by omega⟩
  obtain ⟨D, rfl⟩ : ∃ D : Nat, d = (D : Int) := ⟨d.toNat, by omega⟩
  obtain ⟨h, hh⟩ : ∃ h : Nat, ms / 1000 % 86400 / 3600 = (h : Int) :=
    ⟨(ms / 1000 % 86400 / 3600).toNat, by omega⟩
  obtain ⟨mi, hmi⟩ : ∃ mi : Nat, ms / 1000 % 86400 % 3600 / 60 = (mi : Int) :=
    ⟨(ms / 1000 % 86400 % 3600 / 60).toNat, by omega⟩
  obtain ⟨s, hs⟩ : ∃ s : Nat, ms / 1000 % 86400 % 60 = (s : Int) :=
    ⟨(ms / 1000 % 86400 % 60).toNat, by omega⟩
  obtain ⟨f, hf⟩ : ∃ f : Nat, ms % 1000 * 1000000 / 1000000 = (f : Int) :=
    ⟨(ms % 1000 * 1000000 / 1000000).toNat, by omega⟩
  refine ⟨Y, m, D, h, mi, s, f, by omega, by omega, by omega, by omega, by omega, by omega,
    by omega, ?_, ?_, ?_⟩
  · simp only [Time.Format, UnixMilli, hcv, hh, hmi, hs, hf]
    rw [appendInt_pad4 Y (by omega), appendInt_pad2 m (by omega), appendInt_pad2 D (by omega),
      appendInt_pad2 h (by omega), appendInt_pad2 mi (by omega), appendInt_pad2 s (by omega),
      appendInt_pad3 f (by omega)]
    simp [canonicalTime, List.append_assoc]
  · simp only [Fields.inRange, Bool.and_eq_true, decide_eq_true_eq]
    refine ⟨⟨⟨⟨⟨⟨?_, ?_⟩, ?_⟩, ?_⟩, ?_⟩, ?_⟩, ?_⟩ <;> omega
  · simp only [Fields.toTime, UnixMilli, hback]
    congr 1 <;> push_cast <;> omega

/-! ### The counter -/

theorem isHexDigit_hexDigitUpper (d : Nat) (h : d < 16) : isHexDigit (hexDigitUpper d) = true := by
  interval_cases d <;> rfl

theorem isUpperHexDigit_hexDigitUpper (d : Nat) (h : d < 16) :
    isUpperHexDigit (hexDigitUpper d) = true := by
  interval_cases d <;> rfl

theorem hexVal_hexDigitUpper (d : Nat) (h : d < 16) : hexVal (hexDigitUpper d) = some d := by
  interval_cases d <;> rfl

theorem upperHexDigits_small (fuel n : Nat) (hf : n < fuel) (hn : n < 16) :
    upperHexDigits fuel n = [hexDigitUpper n] := by
  cases fuel with
  | zero => omega
  | succ k => simp [upperHexDigits, hn]

theorem upperHexDigits_step (fuel n : Nat) (hf : n < fuel) (hn : 16 ≤ n) :
    upperHexDigits fuel n = upperHexDigits (fuel - 1) (n / 16) ++ [hexDigitUpper (n % 16)] := by
  cases fuel with
  | zero => omega
  | succ k =>
    have : ¬ n < 16 := by omega
    simp [upperHexDigits, this]

theorem hexDigitUpper_zero : hexDigitUpper 0 = '0' := rfl

theorem Sprintf04X_hex4 (n : Nat) (h : n < 65536) : Sprintf04X (n : Int) = hex4 n := by
  have hneg : ¬ ((n : Int) < 0) := by omega
  simp only [Sprintf04X, hneg, if_false, Int.toNat_ofNat]
  by_cases h1 : n < 16
  · rw [upperHexDigits_small _ _ (by omega) h1]
    have e0 : n / 4096 = 0 := by omega
    have e1 : n / 256 % 16 = 0 := by omega
    have e2 : n / 16 % 16 = 0 := by omega
    have e3 : n % 16 = n := by omega
    simp [zeroPad, hex4, e0, e1, e2, e3, hexDigitUpper_zero]
  · by_cases h2 : n < 256
    · rw [upperHexDigits_step _ _ (by omega) (by omega),
        upperHexDigits_small _ _ (by omega) (by omega)]
      have e0 : n / 4096 = 0 := by omega
      have e1 : n / 256 % 16 = 0 := by omega
      have e2 : n / 16 % 16 = n / 16 := by omega
      simp [zeroPad, hex4, e0, e1, e2, hexDigitUpper_zero]
    · by_cases h3 : n < 4096
      · rw [upperHexDigits_step _ _ (by omega) (by omega),
          upperHexDigits_step _ _ (by omega) (by omega),
          upperHexDigits_small _ _ (by omega) (by omega)]
        have e0 : n / 4096 = 0 := by omega
        have e1 : n / 256 % 16 = n / 16 / 16 := by omega
        simp [zeroPad, hex4, e0, e1, hexDigitUpper_zero]
      · rw [upperHexDigits_step _ _ (by omega) (by omega),
          upperHexDigits_step _ _ (by omega) (by omega),
          upperHexDigits_step _ _ (by omega) (by omega),
          upperHexDigits_small _ _ (by omega) (by omega)]
        have e0 : n / 16 / 16 / 16 = n / 4096 := by omega
        have e1 : n / 16 / 16 % 16 = n / 256 % 16 := by omega
        simp [zeroPad, hex4, e0, e1]

theorem ParseInt16_hex4 (n : Nat) (h : n < 65536) : ParseInt16 (hex4 n) = some (n : Int) := by
  have h0 : n / 4096 < 16 := by omega
  have h1 : n / 256 % 16 < 16 := by omega
  have h2 : n / 16 % 16 < 16 := by omega
  have h3 : n % 16 < 16 := by omega
  have hplus : hexDigitUpper (n / 4096) ≠ '+' := by
    generalize n / 4096 = d at h0
    interval_cases d <;> decide
  have hminus : hexDigitUpper (n / 4096) ≠ '-' := by
    generalize n / 4096 = d at h0
    interval_cases d <;> decide
  simp only [hex4, ParseInt16, hplus, hminus, if_false, ParseUint16, parseHexDigits,
    hexVal_hexDigitUpper _ h0, hexVal_hexDigitUpper _ h1, hexVal_hexDigitUpper _ h2,
    hexVal_hexDigitUpper _ h3]
  have hv : (((0 * 16 + n / 4096) * 16 + n / 256 % 16) * 16 + n / 16 % 16) * 16 + n % 16 = n := by
    omega
  rw [hv]
  have hb : n < 18446744073709551616 := by omega
  have hb2 : n < 9223372036854775808 := by omega
  norm_num only [hb, hb2, if_true]

theorem hex4_all_upper (n : Nat) (h : n < 65536) :
    ∀ x ∈ hex4 n, isUpperHexDigit x = true := by
  intro x hx
  simp only [hex4, List.mem_cons, List.mem_singleton, List.not_mem_nil, or_false] at hx
  rcases hx with rfl | rfl | rfl | rfl <;> apply isUpperHexDigit_hexDigitUpper <;> omega

/-! ### The regular expression -/

theorem matchNodeID_iff (s : List Char) :
    matchNodeID s = true ↔ s ≠ [] ∧ ∀ x ∈ s, isDot x = true := by
  cases s with
  | nil => simp [matchNodeID]
  | cons a t => simp [matchNodeID]

theorem matchCounterNode_some (s c n : List Char) (h : matchCounterNode s = some (c, n)) :
    s = '-' :: (c ++ '-' :: n) ∧ c.length = 4 ∧ (∀ x ∈ c, isHexDigit x = true) ∧
      n ≠ [] ∧ ∀ x ∈ n, isDot x = true := by
  match s, h with
  | h1 :: a :: b :: c' :: d :: h2 :: rest, h =>
    simp only [matchCounterNode] at h
    split_ifs at h with hc
    simp only [Bool.and_eq_true, decide_eq_true_eq] at hc
    obtain ⟨⟨⟨⟨⟨⟨e1, ha⟩, hb⟩, hc'⟩, hd⟩, e2⟩, hn⟩ := hc
    simp only [Option.some.injEq, Prod.mk.injEq] at h
    obtain ⟨rfl, rfl⟩ := h
    subst e1 e2
    rw [matchNodeID_iff] at hn
    refine ⟨by simp, by simp, ?_, hn.1, hn.2⟩
    intro x hx
    simp only [List.mem_cons, List.mem_singleton, List.not_mem_nil, or_false] at hx
    rcases hx with rfl | rfl | rfl | rfl <;> assumption
  | [], h => simp [matchCounterNode] at h
  | [_], h => simp [matchCounterNode] at h
  | [_, _], h => simp [matchCounterNode] at h
  | [_, _, _], h => simp [matchCounterNode] at h
  | [_, _, _, _], h => simp [matchCounterNode] at h
  | [_, _, _, _, _], h => simp [matchCounterNode] at h

theorem matchCounterNode_block (c n : List Char) (hc : c.length = 4)
    (hx : ∀ x ∈ c, isHexDigit x = true) (hn : n ≠ []) (hd : ∀ x ∈ n, isDot x = true) :
    matchCounterNode ('-' :: (c ++ '-' :: n)) = some (c, n) := by
  match c, hc with
  | [a, b, c', d], _ =>
    have ha := hx a (by simp)
    have hb := hx b (by simp)
    have hc' := hx c' (by simp)
    have hd' := hx d (by simp)
    have hm : matchNodeID n = true := (matchNodeID_iff n).mpr ⟨hn, hd⟩
    simp [matchCounterNode, ha, hb, hc', hd', hm]

theorem findSub_cons (x : Char) (rest : List Char) :
    FindStringSubmatch (x :: rest) =
      if isDot x then
        match FindStringSubmatch rest with
        | some (g1, g2, g3) => some (x :: g1, g2, g3)
        | none =>
          match matchCounterNode rest with
          | some (g2, g3) => some ([x], g2, g3)
          | none => none
      else none := by
  rw [FindStringSubmatch]

theorem findSub_some : ∀ (s g1 g2 g3 : List Char), FindStringSubmatch s = some (g1, g2, g3) →
    ∃ q, s = g1 ++ q ∧ matchCounterNode q = some (g2, g3) ∧ FindStringSubmatch q = none ∧
      g1 ≠ [] ∧ ∀ x ∈ g1, isDot x = true
  | [], _, _, _, h => by simp [FindStringSubmatch] at h
  | x :: rest, g1, g2, g3, h => by
    rw [findSub_cons] at h
    split_ifs at h with hx
    cases hr : FindStringSubmatch rest with
    | some r =>
      obtain ⟨r1, r2, r3⟩ := r
      rw [hr] at h
      simp only [Option.some.injEq, Prod.mk.injEq] at h
      obtain ⟨rfl, rfl, rfl⟩ := h
      obtain ⟨q, hq1, hq2, hq3, hq4, hq5⟩ := findSub_some rest r1 r2 r3 hr
      refine ⟨q, by rw [hq1]; rfl, hq2, hq3, by simp, ?_⟩
      intro y hy
      rcases List.mem_cons.mp hy with rfl | hy
      · exact hx
      · exact hq5 y hy
    | none =>
      rw [hr] at h
      cases hm : matchCounterNode rest with
      | some m =>
        obtain ⟨m1, m2⟩ := m
        rw [hm] at h
        simp only [Option.some.injEq, Prod.mk.injEq] at h
        obtain ⟨rfl, rfl, rfl⟩ := h
        exact ⟨rest, rfl, hm, hr, by simp, by simpa using hx⟩
      | none =>
        rw [hm] at h
        simp at h

theorem findSub_of : ∀ (p q c n : List Char), p ≠ [] → (∀ x ∈ p, isDot x = true) →
    matchCounterNode q = some (c, n) → FindStringSubmatch q = none →
    FindStringSubmatch (p ++ q) = some (p, c, n)
  | [], _, _, _, hp, _, _, _ => absurd rfl hp
  | [x], q, c, n, _, hd, hm, hq => by
    have hx : isDot x = true := hd x (by simp)
    have : [x] ++ q = x :: q := rfl
    rw [this, findSub_cons, if_pos hx, hq, hm]
  | x :: y :: p, q, c, n, _, hd, hm, hq => by
    have hx : isDot x = true := hd x (by simp)
    have ih := findSub_of (y :: p) q c n (by simp)
      (fun z hz => hd z (List.mem_cons_of_mem _ hz)) hm hq
    have : x :: y :: p ++ q = x :: ((y :: p) ++ q) := rfl
    rw [this, findSub_cons, if_pos hx, ih]

theorem findSub_none_cons (x : Char) (rest : List Char) (hx : isDot x = true)
    (h : FindStringSubmatch (x :: rest) = none) :
    FindStringSubmatch rest = none ∧ matchCounterNode rest = none := by
  rw [findSub_cons, if_pos hx] at h
  cases hr : FindStringSubmatch rest with
  | some r => rw [hr] at h; simp at h
  | none =>
    rw [hr] at h
    cases hm : matchCounterNode rest with
    | some m => rw [hm] at h; simp at h
    | none => exact ⟨rfl, rfl⟩

theorem findSub_none_suffix : ∀ (u q : List Char), u ≠ [] → (∀ x ∈ u, isDot x = true) →
    FindStringSubmatch (u ++ q) = none → matchCounterNode q = none
  | [], _, hu, _, _ => absurd rfl hu
  | [x], q, _, hd, h => by
    have hx : isDot x = true := hd x (by simp)
    exact (findSub_none_cons x q hx h).2
  | x :: y :: u, q, _, hd, h => by
    have hx : isDot x = true := hd x (by simp)
    have : x :: y :: u ++ q = x :: ((y :: u) ++ q) := rfl
    rw [this] at h
    exact findSub_none_suffix (y :: u) q (by simp)
      (fun z hz => hd z (List.mem_cons_of_mem _ hz)) (findSub_none_cons x _ hx h).1

/-! ### Blocks in texts -/

theorem isDot_of_isHexDigit (x : Char) (h : isHexDigit x = true) : isDot x = true := by
  by_cases hx : x = '\n'
  · subst hx
    exact absurd h (by decide)
  · simp [isDot, hx]

theorem ne_hyphen_of_isHexDigit (x : Char) (h : isHexDigit x = true) : x ≠ '-' := by
  rintro rfl
  exact absurd h (by decide)

theorem matchCounterNode_head (x : Char) (rest : List Char) (hx : x ≠ '-') :
    matchCounterNode (x :: rest) = none := by
  match rest with
  | a :: b :: c :: d :: h2 :: rest => simp [matchCounterNode, hx]
  | [] => simp [matchCounterNode]
  | [_] => simp [matchCounterNode]
  | [_, _] => simp [matchCounterNode]
  | [_, _, _] => simp [matchCounterNode]
  | [_, _, _, _] => simp [matchCounterNode]

/-- The list form of a split of a text at a block. -/
theorem IsBlockSplit.data_eq {s t c n : String} (h : IsBlockSplit s t c n) :
    s.data = t.data ++ '-' :: (c.data ++ '-' :: n.data) := by
  rw [h.1]
  simp [String.data_append]

theorem isBlockSplit_mk (g1 g2 g3 : List Char) (s : String)
    (hs : s.data = g1 ++ '-' :: (g2 ++ '-' :: g3)) (hl : g2.length = 4)
    (hx : ∀ x ∈ g2, isHexDigit x = true) :
    IsBlockSplit s (String.mk g1) (String.mk g2) (String.mk g3) := by
  refine ⟨?_, hl, hx⟩
  apply String.ext
  rw [hs]
  simp [String.data_append]

theorem string_ne_empty_iff (s : String) : s ≠ "" ↔ s.data ≠ [] := by
  constructor
  · intro h hd
    apply h
    apply String.ext
    simpa using hd
  · rintro h rfl
    exact h rfl

theorem blockAt_block (c v : List Char) (hc : c.length = 4)
    (hx : ∀ x ∈ c, isHexDigit x = true) (hv : v ≠ []) :
    blockAt ('-' :: (c ++ '-' :: v)) = true := by
  match c, hc with
  | [a, b, c', d], _ =>
    have ha := hx a (by simp)
    have hb := hx b (by simp)
    have hc' := hx c' (by simp)
    have hd' := hx d (by simp)
    cases v with
    | nil => exact absurd rfl hv
    | cons y ys => simp [blockAt, ha, hb, hc', hd']

theorem hasBlock_of_split : ∀ (u c v : List Char), c.length = 4 →
    (∀ x ∈ c, isHexDigit x = true) → v ≠ [] → hasBlock (u ++ '-' :: (c ++ '-' :: v)) = true
  | [], c, v, hc, hx, hv => by
    have := blockAt_block c v hc hx hv
    simp only [List.nil_append, hasBlock, this, Bool.true_or]
  | y :: u, c, v, hc, hx, hv => by
    have ih := hasBlock_of_split u c v hc hx hv
    have e : y :: u ++ '-' :: (c ++ '-' :: v) = y :: (u ++ '-' :: (c ++ '-' :: v)) := rfl
    rw [e, hasBlock, ih, Bool.or_true]

/-- A text that splits at a block followed by at least one character passes
the test `hasBlock`. -/
theorem hasBlock_of_isBlockSplit (s t c n : String) (h : IsBlockSplit s t c n) (hn : n ≠ "") :
    hasBlock s.data = true := by
  rw [h.data_eq]
  exact hasBlock_of_split _ _ _ h.2.1 h.2.2 ((string_ne_empty_iff n).mp hn)

/-- What a successful match of the regular expression says about the text. -/
theorem findSub_split (s g1 g2 g3 : List Char) (h : FindStringSubmatch s = some (g1, g2, g3)) :
    s = g1 ++ '-' :: (g2 ++ '-' :: g3) ∧ g1 ≠ [] ∧ g2.length = 4 ∧
      (∀ x ∈ g2, isHexDigit x = true) ∧ g3 ≠ [] ∧ (∀ x ∈ s, isDot x = true) ∧
      FindStringSubmatch ('-' :: (g2 ++ '-' :: g3)) = none := by
  obtain ⟨q, hq1, hq2, hq3, hq4, hq5⟩ := findSub_some s g1 g2 g3 h
  obtain ⟨e, hl, hx, hn, hd⟩ := matchCounterNode_some q g2 g3 hq2
  subst e
  refine ⟨hq1, hq4, hl, hx, hn, ?_, hq3⟩
  intro x hxs
  rw [hq1] at hxs
  simp only [List.mem_append, List.mem_cons] at hxs
  rcases hxs with h1 | rfl | h2 | rfl | h3
  · exact hq5 x h1
  · decide
  · exact isDot_of_isHexDigit x (hx x h2)
  · decide
  · exact hd x h3

/-- After a block of four hexadecimal digits the regular expression finds a
later match exactly when one starts at or after the hyphen closing the block. -/
theorem findSub_block_none_iff (x a b c d : Char) (r : List Char) (hxd : isDot x = true)
    (ha : isHexDigit a = true) (hb : isHexDigit b = true) (hc : isHexDigit c = true)
    (hd : isHexDigit d = true) :
    FindStringSubmatch (x :: a :: b :: c :: d :: r) = none ↔
      (FindStringSubmatch r = none ∧ matchCounterNode r = none) := by
  constructor
  · intro h
    have h1 := (findSub_none_cons x _ hxd h).1
    have h2 := (findSub_none_cons a _ (isDot_of_isHexDigit a ha) h1).1
    have h3 := (findSub_none_cons b _ (isDot_of_isHexDigit b hb) h2).1
    have h4 := (findSub_none_cons c _ (isDot_of_isHexDigit c hc) h3).1
    exact findSub_none_cons d _ (isDot_of_isHexDigit d hd) h4
  · rintro ⟨h1, h2⟩
    have e1 : FindStringSubmatch (d :: r) = none := by
      rw [findSub_cons, h1, h2]; simp
    have e2 : FindStringSubmatch (c :: d :: r) = none := by
      rw [findSub_cons, e1, matchCounterNode_head d r (ne_hyphen_of_isHexDigit d hd)]; simp
    have e3 : FindStringSubmatch (b :: c :: d :: r) = none := by
      rw [findSub_cons, e2, matchCounterNode_head c _ (ne_hyphen_of_isHexDigit c hc)]; simp
    have e4 : FindStringSubmatch (a :: b :: c :: d :: r) = none := by
      rw [findSub_cons, e3, matchCounterNode_head b _ (ne_hyphen_of_isHexDigit b hb)]; simp
    rw [findSub_cons, e4, matchCounterNode_head a _ (ne_hyphen_of_isHexDigit a ha)]; simp

/-! ### `Parse` on the canonical text -/

theorem parse_ok_iff (s : String) (h : HLC) :
    Parse s = .ok h ↔
      ∃ g1 g2 g3 tm cnt, FindStringSubmatch s.data = some (g1, g2, g3) ∧
        parseTime g1 = some tm ∧ ParseInt16 g2 = some cnt ∧
        h = { Millis := tm.UnixMilli, Counter := cnt, NodeID := String.mk g3 } := by
  unfold Parse
  constructor
  · intro hp
    cases hf : FindStringSubmatch s.data with
    | none => rw [hf] at hp; simp at hp
    | some g =>
      obtain ⟨g1, g2, g3⟩ := g
      rw [hf] at hp
      simp only at hp
      cases ht : parseTime g1 with
      | none => rw [ht] at hp; simp at hp
      | some tm =>
        rw [ht] at hp
        simp only at hp
        cases hc : ParseInt16 g2 with
        | none => rw [hc] at hp; simp at hp
        | some cnt =>
          rw [hc] at hp
          simp only [Except.ok.injEq] at hp
          exact ⟨g1, g2, g3, tm, cnt, rfl, ht, hc, hp.symm⟩
  · rintro ⟨g1, g2, g3, tm, cnt, hf, ht, hc, rfl⟩
    rw [hf]
    simp only [ht, hc]

theorem isDot_canonicalTime (Y M D h mi s f : Nat) (hY : Y < 10000) (hM : M < 100)
    (hD : D < 100) (hh : h < 100) (hmi : mi < 100) (hs : s < 100) (hf : f < 1000) :
    ∀ x ∈ canonicalTime Y M D h mi s f, isDot x = true := by
  intro x hx
  simp only [canonicalTime, pad4, pad2, pad3, List.mem_append, List.mem_cons,
    List.mem_singleton, List.not_mem_nil, or_false] at hx
  have hd : ∀ k : Nat, k < 10 → isDot (digitChar k) = true := isDot_digitChar
  rcases hx with (rfl | rfl | rfl | rfl) | rfl | (rfl | rfl) | rfl | (rfl | rfl) | rfl |
    (rfl | rfl) | rfl | (rfl | rfl) | rfl | (rfl | rfl) | rfl | (rfl | rfl | rfl) | rfl
  all_goals first
    | decide
    | (apply hd; omega)

theorem canonicalTime_ne_nil (Y M D h mi s f : Nat) : canonicalTime Y M D h mi s f ≠ [] := by
  simp [canonicalTime, pad4]

theorem timeParse_format (ms : Int) (hlo : -62167219200000 ≤ ms)
    (hhi : ms < 253402300800000) :
    timeParse (UnixMilli ms).Format = some (UnixMilli ms) := by
  obtain ⟨Y, M, D, h, mi, s, f, hY, hM, hD, hh, hmi, hs, hf, hfmt, hrange, htime⟩ :=
    format_canonical ms hlo hhi
  rw [hfmt, timeParse, getFields_canonical Y M D h mi s f hY hM hD hh hmi hs hf]
  simp only [hrange, if_true, htime]

theorem unixMilli_roundtrip (ms : Int) : (UnixMilli ms).UnixMilli = ms := by
  simp only [UnixMilli, Time.UnixMilli]
  omega

/-- The core of the round trip: the canonical text of a triple whose time is
within the years 0000 to 9999, whose counter is below 65536 and whose node
identifier is a non-empty text that the regular expression cannot split
further parses back to the triple. -/
theorem parse_string_core (ms cnt : Int) (N : List Char)
    (hlo : -62167219200000 ≤ ms) (hhi : ms < 253402300800000)
    (hc0 : 0 ≤ cnt) (hc1 : cnt ≤ 65535)
    (hN : N ≠ []) (hNd : ∀ x ∈ N, isDot x = true)
    (hF : FindStringSubmatch ('-' :: N) = none) (hM : matchCounterNode ('-' :: N) = none) :
    Parse (HLC.String { Millis := ms, Counter := cnt, NodeID := String.mk N })
      = .ok { Millis := ms, Counter := cnt, NodeID := String.mk N } := by
  obtain ⟨n, rfl⟩ : ∃ n : Nat, cnt = (n : Int) := ⟨cnt.toNat, by omega⟩
  have hn : n < 65536 := by omega
  obtain ⟨Y, M, D, h, mi, s, f, hY, hM', hD, hh, hmi, hs, hf, hfmt, hrange, htime⟩ :=
    format_canonical ms hlo hhi
  have hdata : (HLC.String { Millis := ms, Counter := (n : Int), NodeID := String.mk N }).data
      = canonicalTime Y M D h mi s f ++ '-' :: (hex4 n ++ '-' :: N) := by
    simp only [HLC.String, Sprintf04X_hex4 n hn, hfmt]
    simp [List.append_assoc]
  have hhex : ∀ x ∈ hex4 n, isHexDigit x = true := by
    intro x hx
    simp only [hex4, List.mem_cons, List.mem_singleton, List.not_mem_nil, or_false] at hx
    rcases hx with rfl | rfl | rfl | rfl <;> apply isHexDigit_hexDigitUpper <;> omega
  have hq : FindStringSubmatch ('-' :: (hex4 n ++ '-' :: N)) = none := by
    have h0 : isHexDigit (hexDigitUpper (n / 4096)) = true := hhex _ (by simp [hex4])
    have h1 : isHexDigit (hexDigitUpper (n / 256 % 16)) = true := hhex _ (by simp [hex4])
    have h2 : isHexDigit (hexDigitUpper (n / 16 % 16)) = true := hhex _ (by simp [hex4])
    have h3 : isHexDigit (hexDigitUpper (n % 16)) = true := hhex _ (by simp [hex4])
    exact (findSub_block_none_iff '-' _ _ _ _ ('-' :: N) (by decide) h0 h1 h2 h3).mpr ⟨hF, hM⟩
  have hfind := findSub_of (canonicalTime Y M D h mi s f) ('-' :: (hex4 n ++ '-' :: N))
    (hex4 n) N (canonicalTime_ne_nil _ _ _ _ _ _ _)
    (isDot_canonicalTime Y M D h mi s f hY hM' hD hh hmi hs hf)
    (matchCounterNode_block (hex4 n) N (by simp [hex4]) hhex hN hNd) hq
  rw [parse_ok_iff]
  refine ⟨_, _, _, UnixMilli ms, (n : Int), by rw [hdata]; exact hfind, ?_,
    ParseInt16_hex4 n hn, by rw [unixMilli_roundtrip]⟩
  rw [← hfmt, parseTime, timeParse_format ms hlo hhi]

/-! ### Parsed counters -/

theorem hexVal_of_isHexDigit (x : Char) (h : isHexDigit x = true) :
    ∃ d : Nat, d < 16 ∧ hexVal x = some d := by
  simp only [isHexDigit, Bool.or_eq_true, Bool.and_eq_true, decide_eq_true_eq] at h
  unfold hexVal
  have key : ∀ a b : Char, a ≤ b ↔ a.toNat ≤ b.toNat := fun a b => Iff.rfl
  have c0 : ('0' : Char).toNat = 48 := rfl
  have c9 : ('9' : Char).toNat = 57 := rfl
  have ca : ('a' : Char).toNat = 97 := rfl
  have cf : ('f' : Char).toNat = 102 := rfl
  have cA : ('A' : Char).toNat = 65 := rfl
  have cF : ('F' : Char).toNat = 70 := rfl
  rcases h with (⟨h1, h2⟩ | ⟨h1, h2⟩) | ⟨h1, h2⟩
  · have k1 := (key _ _).mp h1
    have k2 := (key _ _).mp h2
    refine ⟨x.toNat - 48, by omega, ?_⟩
    simp [h1, h2]
  · have k1 := (key _ _).mp h1
    have k2 := (key _ _).mp h2
    have hn : ¬ ('0' ≤ x ∧ x ≤ '9') := by
      rintro ⟨a1, a2⟩
      have := (key _ _).mp a2
      omega
    refine ⟨x.toNat - 87, by omega, ?_⟩
    simp only [Bool.and_eq_true, decide_eq_true_eq, hn, if_false, h1, h2, and_self, if_true]
  · have k1 := (key _ _).mp h1
    have k2 := (key _ _).mp h2
    have hn : ¬ ('0' ≤ x ∧ x ≤ '9') := by
      rintro ⟨a1, a2⟩
      have := (key _ _).mp a2
      omega
    have hn2 : ¬ ('a' ≤ x ∧ x ≤ 'f') := by
      rintro ⟨a1, a2⟩
      have := (key _ _).mp a1
      omega
    refine ⟨x.toNat - 55, by omega, ?_⟩
    simp only [Bool.and_eq_true, decide_eq_true_eq, hn, hn2, if_false, h1, h2, and_self,
      if_true]

/-- On four hexadecimal digits `ParseInt16` succeeds, with a value below 65536. -/
theorem ParseInt16_four (c : List Char) (hl : c.length = 4)
    (hx : ∀ x ∈ c, isHexDigit x = true) :
    ∃ n : Nat, n < 65536 ∧ ParseInt16 c = some (n : Int) := by
  match c, hl with
  | [a, b, c', d], _ =>
    obtain ⟨va, ha, ea⟩ := hexVal_of_isHexDigit a (hx a (by simp))
    obtain ⟨vb, hb, eb⟩ := hexVal_of_isHexDigit b (hx b (by simp))
    obtain ⟨vc, hc, ec⟩ := hexVal_of_isHexDigit c' (hx c' (by simp))
    obtain ⟨vd, hd, ed⟩ := hexVal_of_isHexDigit d (hx d (by simp))
    have hplus : a ≠ '+' := by
      rintro rfl
      exact absurd (hx '+' (by simp)) (by decide)
    have hminus : a ≠ '-' := ne_hyphen_of_isHexDigit a (hx a (by simp))
    refine ⟨((va * 16 + vb) * 16 + vc) * 16 + vd, by omega, ?_⟩
    simp only [ParseInt16, hplus, hminus, if_false, ParseUint16, parseHexDigits, ea, eb, ec, ed,
      Nat.zero_mul, Nat.zero_add]
    have hb1 : ((va * 16 + vb) * 16 + vc) * 16 + vd < 18446744073709551616 := by omega
    have hb2 : ((va * 16 + vb) * 16 + vc) * 16 + vd < 9223372036854775808 := by omega
    norm_num only [hb1, hb2, if_true]

/-! ## The claims about the clock -/

theorem data_hyphen_append (n : String) : ("-" ++ n).data = '-' :: n.data := by
  simp [String.data_append]

theorem node_unsplittable (n : String)
    (hblk : ¬ ∃ u c v : String, IsBlockSplit ("-" ++ n) u c v ∧ v ≠ "") :
    FindStringSubmatch ('-' :: n.data) = none ∧ matchCounterNode ('-' :: n.data) = none := by
  constructor
  · cases hf : FindStringSubmatch ('-' :: n.data) with
    | none => rfl
    | some g =>
      exfalso
      obtain ⟨g1, g2, g3⟩ := g
      obtain ⟨hs, -, hl, hx, hn3, -, -⟩ := findSub_split _ g1 g2 g3 hf
      exact hblk ⟨String.mk g1, String.mk g2, String.mk g3,
        isBlockSplit_mk g1 g2 g3 _ (by rw [data_hyphen_append, hs]) hl hx,
        (string_ne_empty_iff _).mpr hn3⟩
  · cases hm : matchCounterNode ('-' :: n.data) with
    | none => rfl
    | some g =>
      exfalso
      obtain ⟨g2, g3⟩ := g
      obtain ⟨hs, hl, hx, hn3, -⟩ := matchCounterNode_some _ g2 g3 hm
      exact hblk ⟨String.mk [], String.mk g2, String.mk g3,
        isBlockSplit_mk [] g2 g3 _ (by rw [data_hyphen_append, hs]; rfl) hl hx,
        (string_ne_empty_iff _).mpr hn3⟩

/-- C1 (as amended): for every HLC triple `h` with `0 ≤ Millis` up to the end
of the year 9999 (`Millis < 253402300800000`), a counter in `0..65535` and a
node identifier that is non-empty, has no newline and is such that
`"-" ++ NodeID` contains no hyphen-bounded block of 4 hexadecimal digits
followed by at least one more character, `Parse(h.String())` succeeds and
returns `h`. -/
theorem parse_string_roundtrip (h : HLC)
    (hm0 : 0 ≤ h.Millis) (hm1 : h.Millis < 253402300800000)
    (hc0 : 0 ≤ h.Counter) (hc1 : h.Counter ≤ 65535)
    (hn : h.NodeID ≠ "") (hnl : '\n' ∉ h.NodeID.data)
    (hblk : ¬ ∃ u c v : String, IsBlockSplit ("-" ++ h.NodeID) u c v ∧ v ≠ "") :
    Parse h.String = .ok h := by
  obtain ⟨hF, hM⟩ := node_unsplittable h.NodeID hblk
  have hNd : ∀ x ∈ h.NodeID.data, isDot x = true := by
    intro x hx
    have : x ≠ '\n' := by
      rintro rfl
      exact hnl hx
    simp [isDot, this]
  exact parse_string_core h.Millis h.Counter h.NodeID.data (by omega) hm1 hc0 hc1
    ((string_ne_empty_iff _).mp hn) hNd hF hM

set_option maxRecDepth 100000 in
/-- C1, witness: the triple of `2023-10-27T10:00:00.123Z-0000-deviceA` meets
the hypotheses and parses back. -/
theorem parse_string_roundtrip_witness :
    Parse (HLC.String { Millis := 1698400800123, Counter := 0, NodeID := "deviceA" })
      = .ok { Millis := 1698400800123, Counter := 0, NodeID := "deviceA" } :=
  parse_string_roundtrip { Millis := 1698400800123, Counter := 0, NodeID := "deviceA" }
    (by decide) (by decide) (by decide) (by decide) (by decide) (by decide)
    (by
      rintro ⟨u, c, v, hs, hv⟩
      have hb := hasBlock_of_isBlockSplit _ _ _ _ hs hv
      revert hb
      decide)

set_option maxRecDepth 100000 in
/-- C1, counterexample: three triples with `Millis ≥ 0`, a counter in
`0..65535` and a non-empty node identifier whose canonical text `Parse`
rejects: a node identifier containing a later `-1234-` block, a time in the
year 10000, and a node identifier with a newline. So the round trip does not
hold for every valid triple. -/
theorem parse_string_roundtrip_counterexample :
    Parse (HLC.String { Millis := 0, Counter := 0, NodeID := "a-1234-b" })
        = .error ParseError.invalidTime ∧
      Parse (HLC.String { Millis := 253402300800000, Counter := 0, NodeID := "n" })
        = .error ParseError.invalidTime ∧
      Parse (HLC.String { Millis := 0, Counter := 0, NodeID := "a\nb" })
        = .error ParseError.invalidFormat ∧
      ¬ ∀ h : HLC, 0 ≤ h.Millis → 0 ≤ h.Counter → h.Counter ≤ 65535 → h.NodeID ≠ "" →
        Parse h.String = .ok h := by
  refine ⟨by decide, by decide, by decide, ?_⟩
  intro hall
  have := hall { Millis := 0, Counter := 0, NodeID := "a-1234-b" } (by decide) (by decide)
    (by decide) (by decide)
  revert this
  decide

/-- C4 (as amended): whenever `Parse(s)` succeeds, `s` is `t ++ "-" ++ c ++ "-" ++ n`
with `c` exactly 4 hexadecimal digits, `t` non-empty and the time component
that was parsed, `c` the counter that was parsed, and `n` the non-empty
`NodeID` returned; and this block is the last hyphen-bounded block of 4
hexadecimal digits in `s` that is followed by at least one more character. -/
theorem parse_grammar (s : String) (h : HLC) (hp : Parse s = .ok h) :
    ∃ t c : String,
      IsBlockSplit s t c h.NodeID ∧ t ≠ "" ∧ h.NodeID ≠ "" ∧
      (∃ tm, parseTime t.data = some tm ∧ h.Millis = tm.UnixMilli) ∧
      ParseInt16 c.data = some h.Counter ∧
      ∀ t' c' n' : String, IsBlockSplit s t' c' n' → n' ≠ "" → t'.length ≤ t.length := by
  obtain ⟨g1, g2, g3, tm, cnt, hf, ht, hc, rfl⟩ := (parse_ok_iff s h).mp hp
  obtain ⟨hs, hn1, hl, hx, hn3, hdot, -⟩ := findSub_split _ g1 g2 g3 hf
  obtain ⟨q, hq1, hq2, hq3, -, -⟩ := findSub_some _ g1 g2 g3 hf
  refine ⟨String.mk g1, String.mk g2, isBlockSplit_mk g1 g2 g3 s hs hl hx,
    (string_ne_empty_iff _).mpr hn1, (string_ne_empty_iff _).mpr hn3, ⟨tm, ht, rfl⟩, hc, ?_⟩
  intro t' c' n' hsplit hn'
  show t'.data.length ≤ g1.length
  by_contra hlt
  have hd := hsplit.data_eq
  rw [hq1] at hd
  rcases List.append_eq_append_iff.mp hd with ⟨a, ha1, ha2⟩ | ⟨a, ha1, ha2⟩
  · have hane : a ≠ [] := by
      rintro rfl
      rw [ha1] at hlt
      simp at hlt
    have hadot : ∀ x ∈ a, isDot x = true := by
      intro x hxa
      apply hdot
      rw [hq1, ha2]
      simp [hxa]
    have hn'dot : ∀ x ∈ n'.data, isDot x = true := by
      intro x hxn
      apply hdot
      rw [hq1, ha2]
      simp [hxn]
    rw [ha2] at hq3
    have h1 := findSub_none_suffix a _ hane hadot hq3
    rw [matchCounterNode_block c'.data n'.data hsplit.2.1 hsplit.2.2
      ((string_ne_empty_iff _).mp hn') hn'dot] at h1
    exact absurd h1 (by simp)
  · rw [ha1] at hlt
    simp at hlt

set_option maxRecDepth 100000 in
/-- C4, witness: the grammar of `2023-10-27T10:00:00Z-0000-b-1111-`. -/
theorem parse_grammar_witness :
    ∃ t c : String,
      IsBlockSplit "2023-10-27T10:00:00Z-0000-b-1111-" t c "b-1111-" ∧ t ≠ "" ∧
      ("b-1111-" : String) ≠ "" ∧
      (∃ tm, parseTime t.data = some tm ∧ (1698400800000 : Int) = tm.UnixMilli) ∧
      ParseInt16 c.data = some 0 ∧
      ∀ t' c' n' : String, IsBlockSplit "2023-10-27T10:00:00Z-0000-b-1111-" t' c' n' →
        n' ≠ "" → t'.length ≤ t.length :=
  parse_grammar "2023-10-27T10:00:00Z-0000-b-1111-"
    { Millis := 1698400800000, Counter := 0, NodeID := "b-1111-" } (by decide)

set_option maxRecDepth 100000 in
/-- C4, counterexample: `Parse` accepts `2023-10-27T10:00:00Z-0000-b-1111-` with
the counter block `-0000-` and the node identifier `b-1111-`, although the
hyphen-bounded block `-1111-` occurs later in the text: the block `Parse` uses
is not the last occurrence of such a block. -/
theorem parse_grammar_last_block_counterexample :
    Parse "2023-10-27T10:00:00Z-0000-b-1111-"
        = .ok { Millis := 1698400800000, Counter := 0, NodeID := "b-1111-" } ∧
      IsBlockSplit "2023-10-27T10:00:00Z-0000-b-1111-" "2023-10-27T10:00:00Z" "0000" "b-1111-" ∧
      IsBlockSplit "2023-10-27T10:00:00Z-0000-b-1111-" "2023-10-27T10:00:00Z-0000-b" "1111" "" := by
  refine ⟨by decide, ⟨by decide, by decide, by decide⟩, ⟨by decide, by decide, by decide⟩⟩

/-- C5: `Parse` returns the invalid-format error for every string that
contains no block of exactly 4 hexadecimal digits bounded by hyphens with text
on both sides. -/
theorem parse_rejects_without_block (s : String)
    (hno : ¬ ∃ t c n : String, IsBlockSplit s t c n ∧ t ≠ "" ∧ n ≠ "") :
    Parse s = .error ParseError.invalidFormat := by
  unfold Parse
  cases hf : FindStringSubmatch s.data with
  | none => rfl
  | some g =>
    exfalso
    obtain ⟨g1, g2, g3⟩ := g
    obtain ⟨hs, hn1, hl, hx, hn3, -, -⟩ := findSub_split _ g1 g2 g3 hf
    exact hno ⟨String.mk g1, String.mk g2, String.mk g3, isBlockSplit_mk g1 g2 g3 s hs hl hx,
      (string_ne_empty_iff _).mpr hn1, (string_ne_empty_iff _).mpr hn3⟩

set_option maxRecDepth 100000 in
/-- C5, witness: `not-a-timestamp` and `2023-10-27T10:00:00.123Z-ZZZZ-node` contain
no such block, and `Parse` fails on both with the invalid-format error. -/
theorem parse_rejects_without_block_witness :
    Parse "not-a-timestamp" = .error ParseError.invalidFormat ∧
      Parse "2023-10-27T10:00:00.123Z-ZZZZ-node" = .error ParseError.invalidFormat :=
  ⟨parse_rejects_without_block "not-a-timestamp" (by
      rintro ⟨t, c, n, hs, -, hn⟩
      have hb := hasBlock_of_isBlockSplit _ _ _ _ hs hn
      revert hb
      decide),
    parse_rejects_without_block "2023-10-27T10:00:00.123Z-ZZZZ-node" (by
      rintro ⟨t, c, n, hs, -, hn⟩
      have hb := hasBlock_of_isBlockSplit _ _ _ _ hs hn
      revert hb
      decide)⟩

/-- C6 (as amended): for every string `s` on which `Parse(s)` succeeds with a
result `h` whose `Millis` lies within the years 0000 to 9999 in UTC
(`-62167219200000 ≤ Millis < 253402300800000`), `Parse(h.String())` also
succeeds and returns the identical triple `h`. -/
theorem reparse_canonical (s : String) (h : HLC) (hp : Parse s = .ok h)
    (hlo : -62167219200000 ≤ h.Millis) (hhi : h.Millis < 253402300800000) :
    Parse h.String = .ok h := by
  obtain ⟨g1, g2, g3, tm, cnt, hf, ht, hc, rfl⟩ := (parse_ok_iff s h).mp hp
  obtain ⟨hs, hn1, hl, hx, hn3, hdot, hnone⟩ := findSub_split _ g1 g2 g3 hf
  obtain ⟨n, hn, hpi⟩ := ParseInt16_four g2 hl hx
  rw [hc] at hpi
  simp only [Option.some.injEq] at hpi
  subst hpi
  have hg3dot : ∀ x ∈ g3, isDot x = true := by
    intro x hxg
    apply hdot
    rw [hs]
    simp [hxg]
  have hfree : FindStringSubmatch ('-' :: g3) = none ∧ matchCounterNode ('-' :: g3) = none := by
    match g2, hl, hx, hnone with
    | [a, b, c, d], _, hx, hnone =>
      exact (findSub_block_none_iff '-' a b c d ('-' :: g3) (by decide) (hx a (by simp))
        (hx b (by simp)) (hx c (by simp)) (hx d (by simp))).mp hnone
  exact parse_string_core tm.UnixMilli (n : Int) g3 hlo hhi (by omega) (by omega) hn3 hg3dot
    hfree.1 hfree.2

set_option maxRecDepth 100000 in
/-- C6, witness: `2023-10-27T12:00:00.123456+02:00-00ff-deviceA` parses, its
canonical text is a different string, and that text parses to the same triple. -/
theorem reparse_canonical_witness :
    Parse "2023-10-27T12:00:00.123456+02:00-00ff-deviceA"
        = .ok { Millis := 1698400800123, Counter := 255, NodeID := "deviceA" } ∧
      HLC.String { Millis := 1698400800123, Counter := 255, NodeID := "deviceA" }
        = "2023-10-27T10:00:00.123Z-00FF-deviceA" ∧
      Parse (HLC.String { Millis := 1698400800123, Counter := 255, NodeID := "deviceA" })
        = .ok { Millis := 1698400800123, Counter := 255, NodeID := "deviceA" } :=
  ⟨by decide, by decide,
    reparse_canonical "2023-10-27T12:00:00.123456+02:00-00ff-deviceA"
      { Millis := 1698400800123, Counter := 255, NodeID := "deviceA" } (by decide) (by decide)
      (by decide)⟩

set_option maxRecDepth 100000 in
/-- C6, counterexample: `Parse` accepts `9999-12-31T23:59:59-01:00-0000-n`, an
instant of the year 10000 in UTC; the canonical text of the result starts
with the 5-digit year `10000`, and `Parse` rejects it. The same happens below
the year 0000 with `0000-01-01T00:00:00+01:00-0000-n`. -/
theorem reparse_canonical_counterexample :
    Parse "9999-12-31T23:59:59-01:00-0000-n"
        = .ok { Millis := 253402304399000, Counter := 0, NodeID := "n" } ∧
      HLC.String { Millis := 253402304399000, Counter := 0, NodeID := "n" }
        = "10000-01-01T00:59:59.000Z-0000-n" ∧
      Parse (HLC.String { Millis := 253402304399000, Counter := 0, NodeID := "n" })
        = .error ParseError.invalidTime ∧
      Parse "0000-01-01T00:00:00+01:00-0000-n"
        = .ok { Millis := -62167222800000, Counter := 0, NodeID := "n" } ∧
      Parse (HLC.String { Millis := -62167222800000, Counter := 0, NodeID := "n" })
        = .error ParseError.invalidTime := by
  refine ⟨by decide, by decide, by decide, by decide, by decide⟩

/-- C7 (as amended): for every HLC `h` with a counter in `0..65535` and
`Millis` within the years 0000 to 9999 in UTC, `h.String()` is
`<time> ++ "-" ++ <CCCC> ++ "-" ++ h.NodeID`, where `<CCCC>` is exactly 4
upper-case hexadecimal digits whose value is `h.Counter` and `<time>` is the
text `YYYY-MM-DDTHH:mm:ss.sssZ` of a valid civil time whose instant, read as
UTC, is `h.Millis`; and `Zero().String()` is `1970-01-01T00:00:00.000Z-0000-`. -/
theorem string_canonical_form (h : HLC)
    (hlo : -62167219200000 ≤ h.Millis) (hhi : h.Millis < 253402300800000)
    (hc0 : 0 ≤ h.Counter) (hc1 : h.Counter ≤ 65535) :
    (∃ (Y M D hh mi s f : Nat) (cccc : List Char),
      h.String = String.mk (canonicalTime Y M D hh mi s f) ++ "-" ++ String.mk cccc ++ "-"
        ++ h.NodeID ∧
      Fields.inRange { year := Y, month := M, day := D, hour := hh, min := mi, sec := s,
                       nsec := f * 1000000, zoneOffset := 0 } = true ∧
      Fields.toTime { year := Y, month := M, day := D, hour := hh, min := mi, sec := s,
                      nsec := f * 1000000, zoneOffset := 0 } = UnixMilli h.Millis ∧
      (UnixMilli h.Millis).UnixMilli = h.Millis ∧
      Y < 10000 ∧ f < 1000 ∧
      cccc.length = 4 ∧ (∀ x ∈ cccc, isUpperHexDigit x = true) ∧
      ParseInt16 cccc = some h.Counter) ∧
    Zero.String = "1970-01-01T00:00:00.000Z-0000-" := by
  refine ⟨?_, by decide⟩
  obtain ⟨n, hn⟩ : ∃ n : Nat, h.Counter = (n : Int) := ⟨h.Counter.toNat, by omega⟩
  have hn' : n < 65536 := by omega
  obtain ⟨Y, M, D, hh, mi, s, f, hY, hM, hD, hhh, hmi, hs, hf, hfmt, hrange, htime⟩ :=
    format_canonical h.Millis hlo hhi
  refine ⟨Y, M, D, hh, mi, s, f, hex4 n, ?_, hrange, htime, unixMilli_roundtrip _, hY, hf,
    by simp [hex4], hex4_all_upper n hn', ?_⟩
  · apply String.ext
    simp only [HLC.String, hn, Sprintf04X_hex4 n hn', hfmt]
    simp [String.data_append, List.append_assoc]
  · rw [hn]
    exact ParseInt16_hex4 n hn'

set_option maxRecDepth 100000 in
/-- C7, witness: the canonical form of the triple
`(1698400800123, 255, "deviceA")`. -/
theorem string_canonical_form_witness :
    (∃ (Y M D hh mi s f : Nat) (cccc : List Char),
      HLC.String { Millis := 1698400800123, Counter := 255, NodeID := "deviceA" }
        = String.mk (canonicalTime Y M D hh mi s f) ++ "-" ++ String.mk cccc ++ "-"
          ++ "deviceA" ∧
      Fields.inRange { year := Y, month := M, day := D, hour := hh, min := mi, sec := s,
                       nsec := f * 1000000, zoneOffset := 0 } = true ∧
      Fields.toTime { year := Y, month := M, day := D, hour := hh, min := mi, sec := s,
                      nsec := f * 1000000, zoneOffset := 0 } = UnixMilli 1698400800123 ∧
      (UnixMilli 1698400800123).UnixMilli = 1698400800123 ∧
      Y < 10000 ∧ f < 1000 ∧
      cccc.length = 4 ∧ (∀ x ∈ cccc, isUpperHexDigit x = true) ∧
      ParseInt16 cccc = some 255) ∧
    Zero.String = "1970-01-01T00:00:00.000Z-0000-" :=
  string_canonical_form { Millis := 1698400800123, Counter := 255, NodeID := "deviceA" }
    (by decide) (by decide) (by decide) (by decide)

set_option maxRecDepth 100000 in
/-- C7, counterexample: with a counter in `0..65535` but `Millis` in the year
10000, `h.String()` starts with a 5-digit year, so its time part is not of the
form `YYYY-MM-DDTHH:mm:ss.sssZ`: no text of that form is a prefix of it. Below
the year 0000 the year is written with a minus sign. -/
theorem string_canonical_form_counterexample :
    HLC.String { Millis := 253402300800000, Counter := 0, NodeID := "n" }
        = "10000-01-01T00:00:00.000Z-0000-n" ∧
      HLC.String { Millis := -62167219200001, Counter := 0, NodeID := "n" }
        = "-0001-12-31T23:59:59.999Z-0000-n" ∧
      ¬ ∃ (Y M D hh mi s f : Nat) (rest : List Char),
        (HLC.String { Millis := 253402300800000, Counter := 0, NodeID := "n" }).data
          = canonicalTime Y M D hh mi s f ++ rest := by
  refine ⟨by decide, by decide, ?_⟩
  rintro ⟨Y, M, D, hh, mi, s, f, rest, he⟩
  have h1 : (HLC.String { Millis := 253402300800000, Counter := 0, NodeID := "n" }).data
      = "10000-01-01T00:00:00.000Z-0000-n".data := by decide
  rw [h1] at he
  have h2 := congrArg (fun l => l.get? 4) he
  simp [canonicalTime, pad4] at h2

/-! ### The counter sub-parse -/

theorem parseInt16_four_value (a b c d : Char) (va vb vc vd : Nat)
    (ha : hexVal a = some va) (hb : hexVal b = some vb) (hc : hexVal c = some vc)
    (hd : hexVal d = some vd) (hxa : isHexDigit a = true) (n : Nat)
    (hn : ParseInt16 [a, b, c, d] = some (n : Int)) (h16 : va < 16 ∧ vb < 16 ∧ vc < 16 ∧ vd < 16) :
    n = 4096 * va + 256 * vb + 16 * vc + vd := by
  have hplus : a ≠ '+' := by
    rintro rfl
    exact absurd hxa (by decide)
  have hminus : a ≠ '-' := ne_hyphen_of_isHexDigit a hxa
  simp only [ParseInt16, hplus, hminus, if_false, ParseUint16, parseHexDigits, ha, hb, hc, hd,
    Nat.zero_mul, Nat.zero_add] at hn
  have hb1 : ((va * 16 + vb) * 16 + vc) * 16 + vd < 18446744073709551616 := by omega
  have hb2 : ((va * 16 + vb) * 16 + vc) * 16 + vd < 9223372036854775808 := by omega
  norm_num only [hb1, hb2, if_true] at hn
  simp only [Option.some.injEq, Nat.cast_inj] at hn
  omega

/-- C19: on every string the counter sub-parse of `Parse` cannot fail: when the
regular expression matches, `ParseInt16` succeeds on the captured block, so
every error of `Parse` is the invalid-format or the invalid-time error; and
every successful `Parse` splits the string at a block of four hexadecimal
digits `a b c d` and returns as `Counter` their base-16 value, which lies in
`0..65535`. -/
theorem counter_parse_total (s : String) :
    (∀ g1 g2 g3, FindStringSubmatch s.data = some (g1, g2, g3) →
      ∃ n : Nat, n < 65536 ∧ ParseInt16 g2 = some (n : Int)) ∧
    (∀ e, Parse s = .error e → e = ParseError.invalidFormat ∨ e = ParseError.invalidTime) ∧
    (∀ h, Parse s = .ok h →
      ∃ (t : String) (a b c d : Char) (va vb vc vd : Nat),
        IsBlockSplit s t (String.mk [a, b, c, d]) h.NodeID ∧
        hexVal a = some va ∧ hexVal b = some vb ∧ hexVal c = some vc ∧ hexVal d = some vd ∧
        va < 16 ∧ vb < 16 ∧ vc < 16 ∧ vd < 16 ∧
        h.Counter = 4096 * va + 256 * vb + 16 * vc + vd ∧
        0 ≤ h.Counter ∧ h.Counter ≤ 65535) := by
  have hfour : ∀ g1 g2 g3, FindStringSubmatch s.data = some (g1, g2, g3) →
      ∃ n : Nat, n < 65536 ∧ ParseInt16 g2 = some (n : Int) := by
    intro g1 g2 g3 hf
    obtain ⟨-, -, hl, hx, -, -, -⟩ := findSub_split _ g1 g2 g3 hf
    exact ParseInt16_four g2 hl hx
  refine ⟨hfour, ?_, ?_⟩
  · intro e he
    unfold Parse at he
    cases hf : FindStringSubmatch s.data with
    | none =>
      rw [hf] at he
      simp only [Except.error.injEq] at he
      exact Or.inl he.symm
    | some g =>
      obtain ⟨g1, g2, g3⟩ := g
      rw [hf] at he
      simp only at he
      cases ht : parseTime g1 with
      | none =>
        rw [ht] at he
        simp only [Except.error.injEq] at he
        exact Or.inr he.symm
      | some tm =>
        obtain ⟨n, -, hn⟩ := hfour g1 g2 g3 hf
        rw [ht] at he
        simp only [hn] at he
        exact absurd he (by simp)
  · intro h hp
    obtain ⟨g1, g2, g3, tm, cnt, hf, ht, hc, rfl⟩ := (parse_ok_iff s h).mp hp
    obtain ⟨hs, -, hl, hx, -, -, -⟩ := findSub_split _ g1 g2 g3 hf
    obtain ⟨n, hn, hpi⟩ := ParseInt16_four g2 hl hx
    rw [hc] at hpi
    simp only [Option.some.injEq] at hpi
    subst hpi
    match g2, hl, hx, hc, hs with
    | [a, b, c, d], _, hx, hc, hs =>
      obtain ⟨va, ha, ea⟩ := hexVal_of_isHexDigit a (hx a (by simp))
      obtain ⟨vb, hb, eb⟩ := hexVal_of_isHexDigit b (hx b (by simp))
      obtain ⟨vc, hcc, ec⟩ := hexVal_of_isHexDigit c (hx c (by simp))
      obtain ⟨vd, hd, ed⟩ := hexVal_of_isHexDigit d (hx d (by simp))
      have hval := parseInt16_four_value a b c d va vb vc vd ea eb ec ed (hx a (by simp)) n hc
        ⟨ha, hb, hcc, hd⟩
      refine ⟨String.mk g1, a, b, c, d, va, vb, vc, vd,
        isBlockSplit_mk g1 [a, b, c, d] g3 s hs rfl hx, ea, eb, ec, ed, ha, hb, hcc, hd, ?_, ?_, ?_⟩
      · simp only
        omega
      · simp only
        omega
      · simp only
        omega

set_option maxRecDepth 100000 in
/-- Every successful `Parse` returns a non-empty `NodeID`, and the canonical text
of the zero value is rejected as of invalid format. -/
theorem zero_string_rejected :
    (∀ (s : String) (h : HLC), Parse s = .ok h → h.NodeID ≠ "") ∧
      Parse Zero.String = .error ParseError.invalidFormat := by
  refine ⟨?_, by decide⟩
  intro s h hp
  obtain ⟨g1, g2, g3, tm, cnt, hf, ht, hc, rfl⟩ := (parse_ok_iff s h).mp hp
  obtain ⟨-, -, -, -, hn3, -, -⟩ := findSub_split _ g1 g2 g3 hf
  exact (string_ne_empty_iff _).mpr hn3

end Hlc

namespace Server

/-! ## The hub -/

theorem broadcast_eq : ∀ (order : List Conn) (h : Hub) (fails : Conn → Bool) (m : Message),
    h.broadcast order fails m =
      { clients := order.foldl (fun cl c => if fails c then cl.erase c else cl) h.clients,
        log := h.log ++ deliveries fails m order }
  | [], h, fails, m => by simp [Hub.broadcast, deliveries]
  | c :: rest, h, fails, m => by
    have ih := broadcast_eq rest (Hub.deliver fails m h c) fails m
    simp only [Hub.broadcast, List.foldl_cons] at ih ⊢
    rw [ih]
    by_cases hf : fails c = true
    · simp [Hub.deliver, deliveries, hf]
    · simp [Hub.deliver, deliveries, hf]

theorem foldl_erase_eq_filter : ∀ (order cl : List Conn) (fails : Conn → Bool), cl.Nodup →
    order.foldl (fun cl c => if fails c then cl.erase c else cl) cl
      = cl.filter (fun x => !(decide (x ∈ order) && fails x))
  | [], cl, fails, _ => by simp
  | c :: rest, cl, fails, hnd => by
    simp only [List.foldl_cons]
    by_cases hf : fails c = true
    · simp only [hf, if_true]
      rw [foldl_erase_eq_filter rest (cl.erase c) fails (hnd.erase c), hnd.erase_eq_filter,
        List.filter_filter]
      apply List.filter_congr
      intro x _
      by_cases hx : x = c
      · subst hx
        simp [hf]
      · simp [hx]
    · simp only [hf, if_false, Bool.false_eq_true]
      rw [foldl_erase_eq_filter rest cl fails hnd]
      apply List.filter_congr
      intro x _
      by_cases hx : x = c
      · subst hx
        simp [hf]
      · simp [hx]

theorem write_mem_deliveries (fails : Conn → Bool) (m : Message) :
    ∀ (order : List Conn) (c : Conn) (m' : Message),
      Effect.write c m' ∈ deliveries fails m order ↔ (c ∈ order ∧ m' = m)
  | [], c, m' => by simp [deliveries]
  | d :: rest, c, m' => by
    have ih := write_mem_deliveries fails m rest c m'
    by_cases hf : fails d = true
    · simp only [deliveries, hf, if_true, List.mem_cons, Effect.write.injEq, ih, reduceCtorEq,
        false_or]
      constructor
      · rintro (⟨rfl, rfl⟩ | ⟨h1, h2⟩)
        · exact ⟨Or.inl rfl, rfl⟩
        · exact ⟨Or.inr h1, h2⟩
      · rintro ⟨rfl | h1, h2⟩
        · exact Or.inl ⟨rfl, h2⟩
        · exact Or.inr ⟨h1, h2⟩
    · simp only [deliveries, hf, if_false, Bool.false_eq_true, List.mem_cons,
        Effect.write.injEq, ih]
      constructor
      · rintro (⟨rfl, rfl⟩ | ⟨h1, h2⟩)
        · exact ⟨Or.inl rfl, rfl⟩
        · exact ⟨Or.inr h1, h2⟩
      · rintro ⟨rfl | h1, h2⟩
        · exact Or.inl ⟨rfl, h2⟩
        · exact Or.inr ⟨h1, h2⟩

theorem close_mem_deliveries (fails : Conn → Bool) (m : Message) :
    ∀ (order : List Conn) (c : Conn),
      Effect.close c ∈ deliveries fails m order ↔ (c ∈ order ∧ fails c = true)
  | [], c => by simp [deliveries]
  | d :: rest, c => by
    have ih := close_mem_deliveries fails m rest c
    by_cases hf : fails d = true
    · simp only [deliveries, hf, if_true, List.mem_cons, Effect.close.injEq, ih, reduceCtorEq,
        false_or]
      constructor
      · rintro (rfl | ⟨h1, h2⟩)
        · exact ⟨Or.inl rfl, hf⟩
        · exact ⟨Or.inr h1, h2⟩
      · rintro ⟨rfl | h1, h2⟩
        · exact Or.inl rfl
        · exact Or.inr ⟨h1, h2⟩
    · simp only [deliveries, hf, if_false, Bool.false_eq_true, List.mem_cons, ih, reduceCtorEq,
        false_or]
      constructor
      · rintro ⟨h1, h2⟩
        exact ⟨Or.inr h1, h2⟩
      · rintro ⟨rfl | h1, h2⟩
        · exact absurd h2 hf
        · exact ⟨h1, h2⟩

theorem count_write_deliveries (fails : Conn → Bool) (m : Message) :
    ∀ (order : List Conn) (c : Conn),
      (deliveries fails m order).count (Effect.write c m) = order.count c
  | [], c => by simp [deliveries]
  | d :: rest, c => by
    have ih := count_write_deliveries fails m rest c
    by_cases hdc : d = c
    · subst hdc
      by_cases hf : fails d = true <;> simp [deliveries, hf, List.count_cons, ih]
    · by_cases hf : fails d = true <;> simp [deliveries, hf, List.count_cons, ih, hdc]

theorem count_close_deliveries (fails : Conn → Bool) (m : Message) :
    ∀ (order : List Conn) (c : Conn),
      (deliveries fails m order).count (Effect.close c) ≤ order.count c
  | [], c => by simp [deliveries]
  | d :: rest, c => by
    have ih := count_close_deliveries fails m rest c
    by_cases hdc : d = c
    · subst hdc
      by_cases hf : fails d = true <;> simp [deliveries, hf, List.count_cons] <;> omega
    · by_cases hf : fails d = true <;> simp [deliveries, hf, List.count_cons, hdc] <;> omega

/-- The three cases keep the keys of the registry free of duplicates. -/
theorem register_nodup (h : Hub) (c : Conn) (hnd : h.clients.Nodup) :
    (h.register c).clients.Nodup := by
  by_cases hc : c ∈ h.clients
  · simpa [Hub.register, hc] using hnd
  · simp only [Hub.register, hc, if_false]
    exact List.Nodup.append hnd (List.nodup_singleton c) (by simpa using hc)

theorem unregister_nodup (h : Hub) (c : Conn) (hnd : h.clients.Nodup) :
    (h.unregister c).clients.Nodup := by
  by_cases hc : c ∈ h.clients
  · simp only [Hub.unregister, hc, if_true]
    exact hnd.erase c
  · simpa [Hub.unregister, hc] using hnd

theorem broadcast_nodup (h : Hub) (order : List Conn) (fails : Conn → Bool) (m : Message)
    (hnd : h.clients.Nodup) : (h.broadcast order fails m).clients.Nodup := by
  rw [broadcast_eq]
  simp only
  rw [foldl_erase_eq_filter order h.clients fails hnd]
  exact hnd.filter _

/-- One broadcast pass over a registry writes the message once to a connection
of the registry. -/
theorem broadcast_writes_once (h : Hub) (order : List Conn) (fails : Conn → Bool) (m : Message)
    (hnd : h.clients.Nodup) (hperm : order.Perm h.clients) (c : Conn) (hc : c ∈ h.clients) :
    (h.broadcast order fails m).log = h.log ++ deliveries fails m order ∧
      (deliveries fails m order).count (Effect.write c m) = 1 := by
  have hond : order.Nodup := hperm.nodup_iff.mpr hnd
  refine ⟨by rw [broadcast_eq], ?_⟩
  rw [count_write_deliveries]
  exact List.count_eq_one_of_mem hond (hperm.mem_iff.mpr hc)

/-- C8: for every registry and message, the broadcast pass writes exactly the
message, exactly once, to every connection of the registry, whatever writes
fail; it writes nothing else; the registry afterwards is the registry without
the connections whose write failed; and exactly those connections are closed,
each once. `order` is the order in which the pass visits the registry. -/
theorem broadcast_fanout (h : Hub) (order : List Conn) (fails : Conn → Bool) (m : Message)
    (hnd : h.clients.Nodup) (hperm : order.Perm h.clients) :
    ∃ events : List Effect,
      (h.broadcast order fails m).log = h.log ++ events ∧
      (∀ c, c ∈ h.clients → events.count (Effect.write c m) = 1) ∧
      (∀ c m', Effect.write c m' ∈ events → c ∈ h.clients ∧ m' = m) ∧
      (h.broadcast order fails m).clients = h.clients.filter (fun c => !fails c) ∧
      (∀ c, Effect.close c ∈ events ↔ (c ∈ h.clients ∧ fails c = true)) ∧
      (∀ c, events.count (Effect.close c) ≤ 1) := by
  have hond : order.Nodup := hperm.nodup_iff.mpr hnd
  refine ⟨deliveries fails m order, ?_, ?_, ?_, ?_, ?_, ?_⟩
  · rw [broadcast_eq]
  · intro c hc
    exact (broadcast_writes_once h order fails m hnd hperm c hc).2
  · intro c m' hw
    obtain ⟨h1, h2⟩ := (write_mem_deliveries fails m order c m').mp hw
    exact ⟨hperm.mem_iff.mp h1, h2⟩
  · rw [broadcast_eq]
    simp only
    rw [foldl_erase_eq_filter order h.clients fails hnd]
    apply List.filter_congr
    intro x hx
    have : x ∈ order := hperm.mem_iff.mpr hx
    simp [this]
  · intro c
    rw [close_mem_deliveries, hperm.mem_iff]
  · intro c
    have h1 := count_close_deliveries fails m order c
    have h2 : order.count c ≤ 1 := List.nodup_iff_count_le_one.mp hond c
    omega

/-- C8, witness: connections 1, 2, 3 registered, the write to 2 failing, the
pass visiting them in the order 3, 1, 2. -/
theorem broadcast_fanout_witness :
    ∃ events : List Effect,
      (Hub.broadcast { clients := [1, 2, 3], log := [] } [3, 1, 2] (fun c => c == 2) "M").log
        = [] ++ events ∧
      (∀ c, c ∈ [1, 2, 3] → events.count (Effect.write c "M") = 1) ∧
      (∀ c m', Effect.write c m' ∈ events → c ∈ [1, 2, 3] ∧ m' = "M") ∧
      (Hub.broadcast { clients := [1, 2, 3], log := [] } [3, 1, 2] (fun c => c == 2) "M").clients
        = [1, 2, 3].filter (fun c => !(c == 2)) ∧
      (∀ c, Effect.close c ∈ events ↔ (c ∈ [1, 2, 3] ∧ (c == 2) = true)) ∧
      (∀ c, events.count (Effect.close c) ≤ 1) :=
  broadcast_fanout { clients := [1, 2, 3], log := [] } [3, 1, 2] (fun c => c == 2) "M"
    (by decide) (by decide)

/-- C9: processing `unregister(c)` when `c` is in the registry removes exactly
`c` and closes it; when `c` is not in the registry nothing changes and nothing
is closed; a second unregister of the same connection has no effect. -/
theorem unregister_spec (h : Hub) (c : Conn) (hnd : h.clients.Nodup) :
    (c ∈ h.clients →
      (h.unregister c).clients = h.clients.erase c ∧ c ∉ (h.unregister c).clients ∧
      (∀ d, d ≠ c → (d ∈ (h.unregister c).clients ↔ d ∈ h.clients)) ∧
      (h.unregister c).log = h.log ++ [Effect.close c]) ∧
    (c ∉ h.clients → h.unregister c = h) ∧
    (h.unregister c).unregister c = h.unregister c := by
  have hnot : c ∉ h.clients.erase c := fun hm => (List.Nodup.mem_erase_iff hnd).mp hm |>.1 rfl
  refine ⟨?_, ?_, ?_⟩
  · intro hc
    have he : h.unregister c
        = { clients := h.clients.erase c, log := h.log ++ [Effect.close c] } := by
      simp [Hub.unregister, hc]
    rw [he]
    refine ⟨rfl, hnot, ?_, rfl⟩
    intro d hd
    exact List.mem_erase_of_ne hd
  · intro hc
    simp [Hub.unregister, hc]
  · by_cases hc : c ∈ h.clients
    · simp only [Hub.unregister, hc, if_true, hnot, if_false]
    · simp [Hub.unregister, hc]

/-- C9, witness: unregistering connection 2 from the registry 1, 2, 3. -/
theorem unregister_spec_witness :
    Hub.unregister { clients := [1, 2, 3], log := [] } 2
        = { clients := [1, 3], log := [Effect.close 2] } ∧
      (Hub.unregister { clients := [1, 2, 3], log := [] } 2).unregister 2
        = Hub.unregister { clients := [1, 2, 3], log := [] } 2 :=
  ⟨by decide, (unregister_spec { clients := [1, 2, 3], log := [] } 2 (by decide)).2.2⟩

/-- C10: processing `register(c)` yields the registry with `c` added and calls
nothing on any connection; processing it again, or when `c` is already in the
registry, leaves the hub unchanged; and after two registrations a broadcast
writes to `c` exactly once. -/
theorem register_idempotent (h : Hub) (c : Conn) (hnd : h.clients.Nodup) :
    (∀ d, d ∈ (h.register c).clients ↔ (d = c ∨ d ∈ h.clients)) ∧
    (h.register c).log = h.log ∧
    (h.register c).register c = h.register c ∧
    (c ∈ h.clients → h.register c = h) ∧
    ∀ (order : List Conn) (fails : Conn → Bool) (m : Message),
      order.Perm ((h.register c).register c).clients →
      ∃ events : List Effect,
        (((h.register c).register c).broadcast order fails m).log = h.log ++ events ∧
        events.count (Effect.write c m) = 1 := by
  have hmem : ∀ d, d ∈ (h.register c).clients ↔ (d = c ∨ d ∈ h.clients) := by
    intro d
    by_cases hc : c ∈ h.clients
    · simp only [Hub.register, hc, if_true]
      constructor
      · exact Or.inr
      · rintro (rfl | hd)
        · exact hc
        · exact hd
    · simp only [Hub.register, hc, if_false, List.mem_append, List.mem_singleton]
      exact or_comm
  have hlog : (h.register c).log = h.log := by
    by_cases hc : c ∈ h.clients <;> simp [Hub.register, hc]
  have hnd2 : (h.register c).clients.Nodup := register_nodup h c hnd
  have hidem : (h.register c).register c = h.register c := by
    have : c ∈ (h.register c).clients := (hmem c).mpr (Or.inl rfl)
    conv_lhs => rw [Hub.register]
    simp [this]
  refine ⟨hmem, hlog, hidem, ?_, ?_⟩
  · intro hc
    simp [Hub.register, hc]
  · intro order fails m hperm
    rw [hidem] at hperm ⊢
    obtain ⟨he, hw⟩ := broadcast_writes_once (h.register c) order fails m hnd2 hperm c
      ((hmem c).mpr (Or.inl rfl))
    exact ⟨deliveries fails m order, by rw [he, hlog], hw⟩

/-- C10, witness: connection 4 registered twice on the registry 1, 2, 3. -/
theorem register_idempotent_witness :
    (Hub.register { clients := [1, 2, 3], log := [] } 4).register 4
        = { clients := [1, 2, 3, 4], log := [] } ∧
      ∃ events : List Effect,
        (((Hub.register { clients := [1, 2, 3], log := [] } 4).register 4).broadcast
            [4, 3, 2, 1] (fun _ => false) "M").log = [] ++ events ∧
        events.count (Effect.write 4 "M") = 1 :=
  ⟨by decide,
    (register_idempotent { clients := [1, 2, 3], log := [] } 4 (by decide)).2.2.2.2
      [4, 3, 2, 1] (fun _ => false) "M" (by decide)⟩


/-! ### The order of the broadcasts -/

theorem step_log (h : Hub) (r : Request) : ∃ ev, (h.step r).log = h.log ++ ev := by
  cases r with
  | register c =>
    refine ⟨[], ?_⟩
    by_cases hc : c ∈ h.clients <;> simp [Hub.step, Hub.register, hc]
  | unregister c =>
    by_cases hc : c ∈ h.clients
    · exact ⟨[Effect.close c], by simp [Hub.step, Hub.unregister, hc]⟩
    · exact ⟨[], by simp [Hub.step, Hub.unregister, hc]⟩
  | broadcast m order fails =>
    exact ⟨deliveries fails m order, by simp [Hub.step, broadcast_eq]⟩

theorem run_log : ∀ (rs : List Request) (h : Hub), ∃ ev, (h.run rs).log = h.log ++ ev
  | [], h => ⟨[], by simp [Hub.run]⟩
  | r :: rs, h => by
    obtain ⟨ev1, h1⟩ := step_log h r
    obtain ⟨ev2, h2⟩ := run_log rs (h.step r)
    refine ⟨ev1 ++ ev2, ?_⟩
    simp only [Hub.run, List.foldl_cons] at h2 ⊢
    rw [h2, h1, List.append_assoc]

theorem run_append (h : Hub) (rs1 rs2 : List Request) :
    h.run (rs1 ++ rs2) = (h.run rs1).run rs2 := by
  simp [Hub.run, List.foldl_append]

theorem received_append (c : Conn) : ∀ (l1 l2 : List Effect),
    received c (l1 ++ l2) = received c l1 ++ received c l2
  | [], l2 => rfl
  | Effect.write d m :: l1, l2 => by
    have ih := received_append c l1 l2
    by_cases hd : d = c <;> simp [received, hd, ih]
  | Effect.close d :: l1, l2 => by
    have ih := received_append c l1 l2
    simp [received, ih]

theorem received_deliveries (fails : Conn → Bool) (m : Message) (c : Conn) :
    ∀ order : List Conn, received c (deliveries fails m order) = List.replicate (order.count c) m
  | [] => by simp [deliveries, received]
  | d :: rest => by
    have ih := received_deliveries fails m c rest
    by_cases hdc : d = c
    · subst hdc
      by_cases hf : fails d = true <;>
        simp [deliveries, hf, received, ih, List.count_cons, List.replicate_succ]
    · by_cases hf : fails d = true <;>
        simp [deliveries, hf, received, ih, List.count_cons, hdc]

theorem write_sublist (c : Conn) (m1 m2 : Message) (l1 l2 l3 : List Effect)
    (h1 : Effect.write c m1 ∈ l1) (h3 : Effect.write c m2 ∈ l3) :
    List.Sublist [Effect.write c m1, Effect.write c m2] (l1 ++ l2 ++ l3) := by
  have s1 : List.Sublist [Effect.write c m1] l1 := List.singleton_sublist.mpr h1
  have s3 : List.Sublist [Effect.write c m2] l3 := List.singleton_sublist.mpr h3
  have s12 : List.Sublist [Effect.write c m1] (l1 ++ l2) := s1.trans (List.sublist_append_left l1 l2)
  exact List.Sublist.append s12 s3

/-- C11: for every registry and every two broadcasts B1 and B2 that the
coordinator processes in that order, with any requests in between, the log
of the calls on connections is the old log, then the pass of B1, then what the
requests in between do, then the pass of B2. So in every connection's delivery
log what B1 delivers comes before what B2 delivers; a connection that was
registered when B1 was processed gets B1 first; and if B2 is written to it,
the write of B1 precedes the write of B2 in the log. -/
theorem broadcast_order (h : Hub) (o1 o2 : List Conn) (f1 f2 : Conn → Bool)
    (m1 m2 : Message) (mid : List Request)
    (hnd : h.clients.Nodup) (hperm : o1.Perm h.clients) :
    ∃ evMid : List Effect,
      (h.run (Request.broadcast m1 o1 f1 :: (mid ++ [Request.broadcast m2 o2 f2]))).log
        = h.log ++ (deliveries f1 m1 o1 ++ evMid ++ deliveries f2 m2 o2) ∧
      (∀ c, received c (deliveries f1 m1 o1 ++ evMid ++ deliveries f2 m2 o2)
        = received c (deliveries f1 m1 o1) ++ received c evMid
          ++ received c (deliveries f2 m2 o2)) ∧
      (∀ c, (∀ m ∈ received c (deliveries f1 m1 o1), m = m1) ∧
        (∀ m ∈ received c (deliveries f2 m2 o2), m = m2)) ∧
      (∀ c, c ∈ h.clients →
        received c (deliveries f1 m1 o1) = [m1] ∧
        (Effect.write c m2 ∈ deliveries f2 m2 o2 →
          List.Sublist [Effect.write c m1, Effect.write c m2]
            (deliveries f1 m1 o1 ++ evMid ++ deliveries f2 m2 o2))) := by
  have hond : o1.Nodup := hperm.nodup_iff.mpr hnd
  obtain ⟨evMid, hmid⟩ := run_log mid (h.broadcast o1 f1 m1)
  refine ⟨evMid, ?_, ?_, ?_, ?_⟩
  · have e : Request.broadcast m1 o1 f1 :: (mid ++ [Request.broadcast m2 o2 f2])
        = [Request.broadcast m1 o1 f1] ++ mid ++ [Request.broadcast m2 o2 f2] := by simp
    rw [e, run_append, run_append]
    have e1 : h.run [Request.broadcast m1 o1 f1] = h.broadcast o1 f1 m1 := by
      simp [Hub.run, Hub.step]
    rw [e1]
    have e2 : ∀ g : Hub, (g.run [Request.broadcast m2 o2 f2]).log
        = g.log ++ deliveries f2 m2 o2 := by
      intro g
      simp [Hub.run, Hub.step, broadcast_eq]
    rw [e2, hmid, broadcast_eq]
    simp [List.append_assoc]
  · intro c
    rw [received_append, received_append]
  · intro c
    rw [received_deliveries, received_deliveries]
    exact ⟨fun m hm => List.eq_of_mem_replicate hm, fun m hm => List.eq_of_mem_replicate hm⟩
  · intro c hc
    have hco : c ∈ o1 := hperm.mem_iff.mpr hc
    refine ⟨?_, ?_⟩
    · rw [received_deliveries, List.count_eq_one_of_mem hond hco]
      rfl
    · intro hw
      exact write_sublist c m1 m2 _ _ _
        ((write_mem_deliveries f1 m1 o1 c m1).mpr ⟨hco, rfl⟩) hw

/-- C11, witness: connections 1, 2, 3 registered; B1, then connection 2
unregisters, then B2. -/
theorem broadcast_order_witness :
    (Hub.run { clients := [1, 2, 3], log := [] }
        [Request.broadcast "B1" [3, 1, 2] (fun _ => false), Request.unregister 2,
          Request.broadcast "B2" [1, 3] (fun _ => false)]).log
      = [Effect.write 3 "B1", Effect.write 1 "B1", Effect.write 2 "B1", Effect.close 2,
          Effect.write 1 "B2", Effect.write 3 "B2"] ∧
    ∃ evMid : List Effect,
      (Hub.run { clients := [1, 2, 3], log := [] }
          (Request.broadcast "B1" [3, 1, 2] (fun _ => false) ::
            ([Request.unregister 2] ++ [Request.broadcast "B2" [1, 3] (fun _ => false)]))).log
        = [] ++ (deliveries (fun _ => false) "B1" [3, 1, 2] ++ evMid
            ++ deliveries (fun _ => false) "B2" [1, 3]) ∧
      (∀ c, received c (deliveries (fun _ => false) "B1" [3, 1, 2] ++ evMid
            ++ deliveries (fun _ => false) "B2" [1, 3])
        = received c (deliveries (fun _ => false) "B1" [3, 1, 2]) ++ received c evMid
          ++ received c (deliveries (fun _ => false) "B2" [1, 3])) ∧
      (∀ c, (∀ m ∈ received c (deliveries (fun _ => false) "B1" [3, 1, 2]), m = "B1") ∧
        (∀ m ∈ received c (deliveries (fun _ => false) "B2" [1, 3]), m = "B2")) ∧
      (∀ c, c ∈ [1, 2, 3] →
        received c (deliveries (fun _ => false) "B1" [3, 1, 2]) = ["B1"] ∧
        (Effect.write c "B2" ∈ deliveries (fun _ => false) "B2" [1, 3] →
          List.Sublist [Effect.write c "B1", Effect.write c "B2"]
            (deliveries (fun _ => false) "B1" [3, 1, 2] ++ evMid
              ++ deliveries (fun _ => false) "B2" [1, 3]))) :=
  ⟨by decide,
    broadcast_order { clients := [1, 2, 3], log := [] } [3, 1, 2] [1, 3] (fun _ => false)
      (fun _ => false) "B1" "B2" [Request.unregister 2] (by decide) (by decide)⟩

/-! ### The session handler -/

theorem handleMessage_of_envelope (decode : Message → Option JSONValue) (message : Message)
    (envelope : List (String × JSONValue))
    (henv : unmarshalEnvelope (decode message) = some envelope) :
    handleMessage decode message =
      if (asString (lookup envelope "type")).getD "" = "subscribe" then
        match asString (lookup envelope "channel") with
        | some channel => Outcome.next [Action.reply (Response.subscribeSuccess channel)]
        | none => Outcome.panic
      else if (asString (lookup envelope "type")).getD "" = "GET_MERKLE_ROOT" then
        Outcome.next [Action.reply merkleRootResponse]
      else if (asString (lookup envelope "type")).getD "" ∈ causalTypes then
        match asString (lookup envelope "timestamp") with
        | some ts =>
          match Hlc.Parse ts with
          | Except.error _ => Outcome.next []
          | Except.ok _ => Outcome.next [Action.submit message]
        | none => Outcome.next [Action.submit message]
      else if (asString (lookup envelope "type")).getD "" ∈ ephemeralTypes then
        Outcome.next [Action.submit message]
      else Outcome.next [] := by
  unfold handleMessage
  rw [henv]

theorem handleMessage_causal (decode : Message → Option JSONValue) (message : Message)
    (envelope : List (String × JSONValue)) (T : String)
    (henv : unmarshalEnvelope (decode message) = some envelope)
    (hT : asString (lookup envelope "type") = some T) (hc : T ∈ causalTypes) :
    handleMessage decode message =
      match asString (lookup envelope "timestamp") with
      | some ts =>
        match Hlc.Parse ts with
        | Except.error _ => Outcome.next []
        | Except.ok _ => Outcome.next [Action.submit message]
      | none => Outcome.next [Action.submit message] := by
  rw [handleMessage_of_envelope decode message envelope henv, hT]
  have h1 : T ≠ "subscribe" := by
    rintro rfl
    exact absurd hc (by decide)
  have h2 : T ≠ "GET_MERKLE_ROOT" := by
    rintro rfl
    exact absurd hc (by decide)
  simp only [Option.getD_some, h1, h2, if_false, hc, if_true]

/-- The timestamp gate as the code has it: for every inbound message that
decodes to an envelope of a causal mutation type, the session handler submits
the message to the hub if and only if its timestamp member is not a JSON
string (it is absent, or of another type) or is a string that `Parse`
accepts; what it then submits is exactly the raw inbound message and nothing
else; otherwise it does nothing; in both cases the loop continues. -/
theorem timestamp_gate (decode : Message → Option JSONValue) (message : Message)
    (envelope : List (String × JSONValue)) (T : String)
    (henv : unmarshalEnvelope (decode message) = some envelope)
    (hT : asString (lookup envelope "type") = some T) (hc : T ∈ causalTypes) :
    (handleMessage decode message = Outcome.next [Action.submit message] ↔
      (asString (lookup envelope "timestamp") = none ∨
        ∃ ts h, asString (lookup envelope "timestamp") = some ts ∧ Hlc.Parse ts = .ok h)) ∧
    (handleMessage decode message = Outcome.next [] ↔
      ∃ ts e, asString (lookup envelope "timestamp") = some ts ∧ Hlc.Parse ts = .error e) ∧
    (handleMessage decode message = Outcome.next [Action.submit message] ∨
      handleMessage decode message = Outcome.next []) := by
  rw [handleMessage_causal decode message envelope T henv hT hc]
  cases hts : asString (lookup envelope "timestamp") with
  | none => simp
  | some ts =>
    cases hp : Hlc.Parse ts with
    | error e => simp [hp]
    | ok h => simp [hp]

set_option maxRecDepth 100000 in
/-- An `UPDATE_TASK` with the timestamp `garbage` is dropped, and an `UPDATE_TASK`
with a well-formed timestamp is submitted as it came. -/
theorem timestamp_gate_examples :
    (handleMessage (fun _ => some (JSONValue.object [("type", JSONValue.string "UPDATE_TASK"),
        ("timestamp", JSONValue.string "garbage")])) "raw-1" = Outcome.next [] ↔
      ∃ ts e, asString (lookup [("type", JSONValue.string "UPDATE_TASK"),
        ("timestamp", JSONValue.string "garbage")] "timestamp") = some ts ∧
        Hlc.Parse ts = .error e) ∧
    handleMessage (fun _ => some (JSONValue.object [("type", JSONValue.string "UPDATE_TASK"),
        ("timestamp", JSONValue.string "garbage")])) "raw-1" = Outcome.next [] ∧
    handleMessage (fun _ => some (JSONValue.object [("type", JSONValue.string "UPDATE_TASK"),
        ("timestamp", JSONValue.string "2023-10-27T10:00:00.123Z-0000-deviceA")])) "raw-2"
      = Outcome.next [Action.submit "raw-2"] :=
  ⟨(timestamp_gate (fun _ => some (JSONValue.object [("type", JSONValue.string "UPDATE_TASK"),
        ("timestamp", JSONValue.string "garbage")])) "raw-1"
      [("type", JSONValue.string "UPDATE_TASK"), ("timestamp", JSONValue.string "garbage")]
      "UPDATE_TASK" rfl (by decide) (by decide)).2.1,
    by decide, by decide⟩

set_option maxRecDepth 100000 in
/-- C12, the failing input: an `UPDATE_TASK` whose timestamp member is the
number 5 has a timestamp that is present and is no well-formed HLC, and the
session handler submits it all the same: the type assertion to `string` fails
and no validation runs. -/
theorem nonstring_timestamp_submitted :
    lookup [("type", JSONValue.string "UPDATE_TASK"), ("timestamp", JSONValue.number "5")]
        "timestamp" ≠ none ∧
      asString (lookup [("type", JSONValue.string "UPDATE_TASK"),
        ("timestamp", JSONValue.number "5")] "timestamp") = none ∧
      handleMessage (fun _ => some (JSONValue.object [("type", JSONValue.string "UPDATE_TASK"),
        ("timestamp", JSONValue.number "5")])) "raw" = Outcome.next [Action.submit "raw"] := by
  refine ⟨?_, by decide, by decide⟩
  simp [lookup]

/-- What `json.Unmarshal` into the envelope map accepts: `null`, and an object
in which every number, at any depth, converts to a `float64`. -/
theorem unmarshalEnvelope_eq_some (v : Option JSONValue) (envelope : List (String × JSONValue)) :
    unmarshalEnvelope v = some envelope ↔
      (v = some (JSONValue.object envelope) ∧ convertibleMembers envelope = true) ∨
      (v = some JSONValue.null ∧ envelope = []) := by
  cases v with
  | none => simp [unmarshalEnvelope]
  | some w =>
    cases w with
    | object members =>
      by_cases hm : convertibleMembers members = true
      · simp only [unmarshalEnvelope, hm, if_true, Option.some.injEq, JSONValue.object.injEq,
          reduceCtorEq, false_and, or_false]
        constructor
        · rintro rfl
          exact ⟨rfl, hm⟩
        · rintro ⟨h, _⟩
          exact h
      · simp only [unmarshalEnvelope, hm, Option.some.injEq, JSONValue.object.injEq,
          reduceCtorEq, false_and, or_false, Bool.false_eq_true, if_false, false_iff, not_and]
        rintro rfl
        exact hm
    | null =>
      simp only [unmarshalEnvelope, Option.some.injEq, reduceCtorEq, false_and, false_or,
        true_and]
      exact eq_comm
    | bool b => simp [unmarshalEnvelope]
    | number literal => simp [unmarshalEnvelope]
    | string str => simp [unmarshalEnvelope]
    | array items => simp [unmarshalEnvelope]

/-- A message whose JSON object holds a number that does not convert to a
`float64` is dropped by the session handler, whatever its type: the decoding
into the envelope map returns an error and the loop continues. -/
theorem handleMessage_unconvertible (decode : Message → Option JSONValue) (message : Message)
    (members : List (String × JSONValue))
    (hd : decode message = some (JSONValue.object members))
    (hm : convertibleMembers members = false) :
    unmarshalEnvelope (decode message) = none ∧ handleMessage decode message = Outcome.next [] := by
  have h : unmarshalEnvelope (decode message) = none := by
    rw [hd]
    simp [unmarshalEnvelope, hm]
  refine ⟨h, ?_⟩
  unfold handleMessage
  rw [h]

set_option maxRecDepth 100000 in
/-- The range of `float64` on number literals: `1e400` overflows, and so does
every literal from the halfway point `1.79769313486231580793...e308` on; the
literals below it, the largest `float64` among them, convert, as do the numbers
of everyday messages and a number too small for a `float64` (it converts to
zero). -/
theorem fitsFloat64_examples :
    fitsFloat64 "1e400".data = false ∧
    fitsFloat64 "-1e400".data = false ∧
    fitsFloat64 "1.7976931348623159e308".data = false ∧
    fitsFloat64 "1.797693134862315808e308".data = false ∧
    fitsFloat64 "1.797693134862315807e308".data = true ∧
    fitsFloat64 "1.7976931348623158e308".data = true ∧
    fitsFloat64 "1.7976931348623157e308".data = true ∧
    fitsFloat64 "5".data = true ∧
    fitsFloat64 "-12.5E+3".data = true ∧
    fitsFloat64 "1e-400".data = true ∧
    fitsFloat64 "0e400".data = true := by
  refine ⟨by decide, by decide, by decide, by decide, by decide, by decide, by decide,
    by decide, by decide, by decide, by decide⟩

set_option maxRecDepth 100000 in
/-- A `CURSOR_MOVE` with a member `x` of value `1e400`, and one with that number
inside an array inside its data, do not decode to an envelope and are dropped;
with `x` of value `1.5e3` the message is submitted. -/
theorem overflowing_number_dropped :
    unmarshalEnvelope (some (JSONValue.object [("type", JSONValue.string "CURSOR_MOVE"),
        ("x", JSONValue.number "1e400")])) = none ∧
    handleMessage (fun _ => some (JSONValue.object [("type", JSONValue.string "CURSOR_MOVE"),
        ("x", JSONValue.number "1e400")])) "raw-1" = Outcome.next [] ∧
    handleMessage (fun _ => some (JSONValue.object [("type", JSONValue.string "CURSOR_MOVE"),
        ("data", JSONValue.object [("path", JSONValue.array [JSONValue.number "1e400"])])]))
        "raw-2" = Outcome.next [] ∧
    handleMessage (fun _ => some (JSONValue.object [("type", JSONValue.string "CURSOR_MOVE"),
        ("x", JSONValue.number "1.5e3")])) "raw-3" = Outcome.next [Action.submit "raw-3"] := by
  refine ⟨by rfl, by decide, by decide, by decide⟩

/-- C13: for every inbound message that decodes to an envelope (the call of
`json.Unmarshal` into the envelope map succeeds) of type `PRESENCE_UPDATE`,
`CURSOR_MOVE` or `GHOST_UPDATE`, whatever its other members, the session
handler submits exactly the raw inbound message to the hub. -/
theorem ephemeral_bypass (decode : Message → Option JSONValue) (message : Message)
    (envelope : List (String × JSONValue)) (T : String)
    (henv : unmarshalEnvelope (decode message) = some envelope)
    (hT : asString (lookup envelope "type") = some T) (he : T ∈ ephemeralTypes) :
    handleMessage decode message = Outcome.next [Action.submit message] := by
  rw [handleMessage_of_envelope decode message envelope henv, hT]
  have h1 : T ≠ "subscribe" := by
    rintro rfl
    exact absurd he (by decide)
  have h2 : T ≠ "GET_MERKLE_ROOT" := by
    rintro rfl
    exact absurd he (by decide)
  have h3 : T ∉ causalTypes := by
    intro hc
    simp only [ephemeralTypes, List.mem_cons, List.mem_singleton, List.not_mem_nil,
      or_false] at he
    rcases he with rfl | rfl | rfl <;> exact absurd hc (by decide)
  simp only [Option.getD_some, h1, h2, h3, if_false, he, if_true]

set_option maxRecDepth 100000 in
/-- C13, witness: a `CURSOR_MOVE` without a timestamp member, one with a
malformed timestamp, and a `PRESENCE_UPDATE` whose data holds numbers. -/
theorem ephemeral_bypass_witness :
    handleMessage (fun _ => some (JSONValue.object [("type", JSONValue.string "CURSOR_MOVE")]))
        "raw-1" = Outcome.next [Action.submit "raw-1"] ∧
    handleMessage (fun _ => some (JSONValue.object [("type", JSONValue.string "CURSOR_MOVE"),
        ("timestamp", JSONValue.string "garbage")])) "raw-2"
      = Outcome.next [Action.submit "raw-2"] ∧
    handleMessage (fun _ => some (JSONValue.object [("type", JSONValue.string "PRESENCE_UPDATE"),
        ("data", JSONValue.object [("x", JSONValue.number "12.5"),
          ("path", JSONValue.array [JSONValue.number "-3e2", JSONValue.null])])])) "raw-3"
      = Outcome.next [Action.submit "raw-3"] :=
  ⟨ephemeral_bypass _ "raw-1" [("type", JSONValue.string "CURSOR_MOVE")] "CURSOR_MOVE"
      (by rfl) (by decide) (by decide),
    ephemeral_bypass _ "raw-2" [("type", JSONValue.string "CURSOR_MOVE"),
      ("timestamp", JSONValue.string "garbage")] "CURSOR_MOVE" (by rfl) (by decide) (by decide),
    ephemeral_bypass _ "raw-3" [("type", JSONValue.string "PRESENCE_UPDATE"),
        ("data", JSONValue.object [("x", JSONValue.number "12.5"),
          ("path", JSONValue.array [JSONValue.number "-3e2", JSONValue.null])])]
      "PRESENCE_UPDATE" (by rfl) (by decide) (by decide)⟩

/-- The body of the read loop panics on exactly one kind of message: one that
decodes to an envelope of type `subscribe` whose member `channel` is missing
or is not a string. On every other message it reaches the next turn. -/
theorem handleMessage_panic_iff (decode : Message → Option JSONValue) (message : Message) :
    handleMessage decode message = Outcome.panic ↔
      ∃ envelope, unmarshalEnvelope (decode message) = some envelope ∧
        asString (lookup envelope "type") = some "subscribe" ∧
        asString (lookup envelope "channel") = none := by
  cases henv : unmarshalEnvelope (decode message) with
  | none => simp [handleMessage, henv]
  | some envelope =>
    rw [handleMessage_of_envelope decode message envelope henv]
    have hex : (∃ envelope', some envelope = some envelope' ∧
        asString (lookup envelope' "type") = some "subscribe" ∧
        asString (lookup envelope' "channel") = none) ↔
        (asString (lookup envelope "type") = some "subscribe" ∧
          asString (lookup envelope "channel") = none) := by
      constructor
      · rintro ⟨e, he, h1, h2⟩
        cases he
        exact ⟨h1, h2⟩
      · rintro ⟨h1, h2⟩
        exact ⟨envelope, rfl, h1, h2⟩
    rw [hex]
    cases hT : asString (lookup envelope "type") with
    | none =>
      have h1 : ("" : String) ≠ "subscribe" := by decide
      have h2 : ("" : String) ≠ "GET_MERKLE_ROOT" := by decide
      have h3 : ("" : String) ∉ causalTypes := by decide
      have h4 : ("" : String) ∉ ephemeralTypes := by decide
      simp [h1, h2, h3, h4]
    | some T =>
      simp only [Option.getD_some]
      by_cases h1 : T = "subscribe"
      · subst h1
        cases hch : asString (lookup envelope "channel") with
        | none => simp
        | some ch => simp
      · have hne : ¬ (some T = some "subscribe" ∧ asString (lookup envelope "channel") = none) := by
          rintro ⟨h, -⟩
          exact h1 (Option.some.inj h)
        simp only [h1, if_false, hne, iff_false]
        split_ifs
        · simp
        · cases asString (lookup envelope "timestamp") with
          | none => simp
          | some ts =>
            cases hp : Hlc.Parse ts with
            | error e => simp [hp]
            | ok h => simp [hp]
        · simp
        · simp

/-- C14, the failing input: a message that decodes to the envelope whose only
member is `type`, the string `subscribe`, without a member `channel`, makes
the body of the read loop panic; the loop ends without a read error, the message read after
it is never processed, and the deferred unregister runs. -/
theorem subscribe_without_channel_panics :
    handleMessage (fun _ => some (JSONValue.object [("type", JSONValue.string "subscribe")]))
        "raw-1" = Outcome.panic ∧
    readLoop (fun _ => some (JSONValue.object [("type", JSONValue.string "subscribe")]))
        [Read.message "raw-1", Read.message "raw-2"] = ([], LoopEnd.panicked) ∧
    handleWebSocket (fun _ => some (JSONValue.object [("type", JSONValue.string "subscribe")]))
        [Read.message "raw-1", Read.message "raw-2"] = [Action.register, Action.unregister] := by
  refine ⟨by decide, by decide, by decide⟩

/-! ### The standalone validator -/

theorem validateOp_of_parse_ok (op : Operation) (h : Hlc.HLC)
    (hts : Hlc.Parse op.Timestamp = .ok h) :
    validateOp op =
      if op.OpType = OpInsertTask ∨ op.OpType = OpUpdateTask then
        match unmarshalTask op.Data with
        | none => Verdict.invalidTaskData
        | some task => if task.ID = "" then Verdict.taskIDRequired else Verdict.valid
      else if op.OpType = OpCreateTag then
        match unmarshalTag op.Data with
        | none => Verdict.invalidTagData
        | some tag => if tag.MerkleRoot = "" then Verdict.tagMerkleRootRequired else Verdict.valid
      else Verdict.valid := by
  unfold validateOp
  by_cases hv : op.SchemaVersion < 1
  · simp only [hv, if_true, hts]
  · simp only [hv, if_false, hts]

theorem validateOp_schemaVersion (op : Operation) (v : Int) :
    validateOp { op with SchemaVersion := v } = validateOp op := by
  unfold validateOp
  by_cases h1 : v < 1 <;> by_cases h2 : op.SchemaVersion < 1 <;> simp only [h1, h2, if_true, if_false]

/-- C15 (as amended): for every decoded operation whose timestamp parses, and
for every schemaVersion value, `handleValidateOp` answers `Operation Valid`
exactly when the payload check for its type passes: for `INSERT_TASK` and
`UPDATE_TASK`, `data` decodes as a task payload and its `id` is not empty; for
`CREATE_TAG`, `data` decodes as a tag payload and its `merkleRoot` is not
empty; for every other type, always. -/
theorem validate_verdict (op : Operation) (h : Hlc.HLC)
    (hts : Hlc.Parse op.Timestamp = .ok h) :
    (validateOp op = Verdict.valid ↔
      ((op.OpType = OpInsertTask ∨ op.OpType = OpUpdateTask) →
        ∃ task, unmarshalTask op.Data = some task ∧ task.ID ≠ "") ∧
      (op.OpType = OpCreateTag →
        ∃ tag, unmarshalTag op.Data = some tag ∧ tag.MerkleRoot ≠ "")) ∧
    (∀ v, validateOp { op with SchemaVersion := v } = validateOp op) := by
  refine ⟨?_, validateOp_schemaVersion op⟩
  rw [validateOp_of_parse_ok op h hts]
  have hne1 : OpInsertTask ≠ OpCreateTag := by decide
  have hne2 : OpUpdateTask ≠ OpCreateTag := by decide
  by_cases htask : op.OpType = OpInsertTask ∨ op.OpType = OpUpdateTask
  · have hnt : op.OpType ≠ OpCreateTag := by
      rcases htask with e | e <;> rw [e] <;> assumption
    simp only [htask, if_true, hnt, false_implies, and_true, true_implies]
    cases hu : unmarshalTask op.Data with
    | none => simp
    | some task =>
      by_cases hid : task.ID = "" <;> simp [hid]
  · simp only [htask, if_false, false_implies, true_and]
    by_cases htag : op.OpType = OpCreateTag
    · simp only [htag, if_true, true_implies]
      cases hu : unmarshalTag op.Data with
      | none => simp
      | some tag =>
        by_cases hid : tag.MerkleRoot = "" <;> simp [hid]
    · simp [htag]

set_option maxRecDepth 100000 in
/-- C15, witness: the `INSERT_TASK` of the timestamp
`2023-10-27T10:00:00.000Z-0000-deviceA` with the data of the single member `id`,
the string `t1`, is valid; with the empty object as data it is rejected, the
task id being required. -/
theorem validate_verdict_witness :
    validateOp (Operation.of "INSERT_TASK" exampleTimestamp
      (some (JSONValue.object [("id", JSONValue.string "t1")]))) = Verdict.valid ∧
    validateOp (Operation.of "INSERT_TASK" exampleTimestamp (some (JSONValue.object [])))
      = Verdict.taskIDRequired :=
  ⟨(validate_verdict (Operation.of "INSERT_TASK" exampleTimestamp
        (some (JSONValue.object [("id", JSONValue.string "t1")])))
      { Millis := 1698400800000, Counter := 0, NodeID := "deviceA" } (by decide)).1.mpr
      ⟨fun _ => ⟨{ ID := "t1" }, by decide, by decide⟩, fun hc => absurd hc (by decide)⟩,
    by decide⟩

set_option maxRecDepth 100000 in
/-- C15, counterexample: an `INSERT_TASK` whose timestamp parses and whose data
has the non-empty id `t1` is still rejected, with `Invalid Task Data
structure`, when another member of the data has the wrong type (`isDeleted` a
string), and when the member `id` is given twice, first as a number. So a
non-empty id in the data is not enough. -/
theorem validate_verdict_counterexample :
    hasNonEmptyString "id" (some (JSONValue.object [("id", JSONValue.string "t1"),
        ("isDeleted", JSONValue.string "yes")])) = true ∧
    validateOp (Operation.of "INSERT_TASK" exampleTimestamp
      (some (JSONValue.object [("id", JSONValue.string "t1"),
        ("isDeleted", JSONValue.string "yes")]))) = Verdict.invalidTaskData ∧
    hasNonEmptyString "id" (some (JSONValue.object [("id", JSONValue.number "7"),
        ("id", JSONValue.string "t1")])) = true ∧
    validateOp (Operation.of "INSERT_TASK" exampleTimestamp
      (some (JSONValue.object [("id", JSONValue.number "7"),
        ("id", JSONValue.string "t1")]))) = Verdict.invalidTaskData := by
  refine ⟨by decide, by decide, by decide, by decide⟩

/-- C16: for every decoded operation, of any type and with any data, whose
timestamp does not parse, `handleValidateOp` rejects it with the timestamp
reason, which carries the raw timestamp string and the error of `Parse`; the
payload check plays no part. -/
theorem validate_timestamp_first (op : Operation) (e : Hlc.ParseError)
    (hts : Hlc.Parse op.Timestamp = .error e) :
    validateOp op = Verdict.invalidTimestamp op.Timestamp e ∧
    (∀ (T : String) (data : Option JSONValue) (v : Int),
      validateOp { op with OpType := T, Data := data, SchemaVersion := v }
        = Verdict.invalidTimestamp op.Timestamp e) := by
  refine ⟨?_, ?_⟩
  · unfold validateOp
    by_cases hv : op.SchemaVersion < 1
    · simp only [hv, if_true, hts]
    · simp only [hv, if_false, hts]
  · intro T data v
    unfold validateOp
    by_cases hv : v < 1
    · simp only [hv, if_true, hts]
    · simp only [hv, if_false, hts]

set_option maxRecDepth 100000 in
/-- C16, witness: an `INSERT_TASK` with the 3-digit counter timestamp
`2023-10-27T10:00:00.000Z-000-deviceA` and no data, which fails the payload
check too, is rejected with the timestamp reason and the invalid-format error;
so is an operation with an empty timestamp. -/
theorem validate_timestamp_first_witness :
    validateOp (Operation.of "INSERT_TASK" "2023-10-27T10:00:00.000Z-000-deviceA" none)
      = Verdict.invalidTimestamp "2023-10-27T10:00:00.000Z-000-deviceA"
          Hlc.ParseError.invalidFormat ∧
    validateOp (Operation.of "DELETE_TASK" "" none)
      = Verdict.invalidTimestamp "" Hlc.ParseError.invalidFormat :=
  ⟨(validate_timestamp_first
      (Operation.of "INSERT_TASK" "2023-10-27T10:00:00.000Z-000-deviceA" none)
      Hlc.ParseError.invalidFormat (by decide)).1,
    (validate_timestamp_first (Operation.of "DELETE_TASK" "" none)
      Hlc.ParseError.invalidFormat (by decide)).1⟩

/-! ### The validator and the session handler on the same envelope -/

/-- C17 (as amended): for every envelope of a causal mutation type that the
session handler decodes (the call of `json.Unmarshal` into its envelope map
succeeds, so that no number in the message overflows a `float64`) and in which
it reads the same type and, when it reads one, the same timestamp as the
validator: if the standalone validator accepts the envelope, the session
handler submits it to the hub. (The converse does not hold.) -/
theorem validator_accepts_implies_submit (decode : Message → Option JSONValue) (raw : Message)
    (op : Operation) (envelope : List (String × JSONValue))
    (hop : unmarshalOperation (decode raw) = some op)
    (henv : unmarshalEnvelope (decode raw) = some envelope)
    (hT : asString (lookup envelope "type") = some op.OpType)
    (hts : ∀ ts, asString (lookup envelope "timestamp") = some ts → ts = op.Timestamp)
    (hc : op.OpType ∈ causalTypes)
    (hacc : handleValidateOp decode "POST" (some raw) = Verdict.valid) :
    handleMessage decode raw = Outcome.next [Action.submit raw] := by
  have hpost : ¬ ("POST" ≠ "POST") := by decide
  simp only [handleValidateOp, hpost, if_false, hop] at hacc
  rw [handleMessage_causal decode raw envelope op.OpType henv hT hc]
  cases hs : asString (lookup envelope "timestamp") with
  | none => rfl
  | some ts =>
    have e := hts ts hs
    subst e
    cases hp : Hlc.Parse op.Timestamp with
    | ok h => simp only [hp]
    | error err =>
      exfalso
      unfold validateOp at hacc
      by_cases hv : op.SchemaVersion < 1
      · simp only [hv, if_true, hp] at hacc
        exact absurd hacc (by simp)
      · simp only [hv, if_false, hp] at hacc
        exact absurd hacc (by simp)

set_option maxRecDepth 100000 in
/-- C17, witness: an `INSERT_TASK` with a well-formed timestamp and the data of
the single member `id`, the string `t1`; the validator accepts it and the
session handler submits it. -/
theorem validator_accepts_implies_submit_witness :
    handleValidateOp (fun _ => some (JSONValue.object [("type", JSONValue.string "INSERT_TASK"),
        ("timestamp", JSONValue.string exampleTimestamp),
        ("data", JSONValue.object [("id", JSONValue.string "t1")])])) "POST" (some "raw")
      = Verdict.valid ∧
    handleMessage (fun _ => some (JSONValue.object [("type", JSONValue.string "INSERT_TASK"),
        ("timestamp", JSONValue.string exampleTimestamp),
        ("data", JSONValue.object [("id", JSONValue.string "t1")])])) "raw"
      = Outcome.next [Action.submit "raw"] :=
  ⟨by decide,
    validator_accepts_implies_submit _ "raw"
      (Operation.of "INSERT_TASK" exampleTimestamp
        (some (JSONValue.object [("id", JSONValue.string "t1")])))
      [("type", JSONValue.string "INSERT_TASK"),
        ("timestamp", JSONValue.string exampleTimestamp),
        ("data", JSONValue.object [("id", JSONValue.string "t1")])]
      (by rfl) (by rfl) (by decide)
      (by
        intro ts hts
        have h0 : asString (lookup [("type", JSONValue.string "INSERT_TASK"),
            ("timestamp", JSONValue.string exampleTimestamp),
            ("data", JSONValue.object [("id", JSONValue.string "t1")])] "timestamp")
            = some exampleTimestamp := by decide
        rw [h0] at hts
        exact (Option.some.inj hts).symm)
      (by decide) (by decide)⟩

set_option maxRecDepth 100000 in
/-- C17, counterexample: the session handler submits an `INSERT_TASK` with a
well-formed timestamp and an empty data object, which the validator rejects
for its missing task id; it submits a `DELETE_TASK` without a timestamp, which
the validator rejects for its timestamp. And where the two handlers do not
read the same type, an envelope with the members `type`, first the string
`DELETE_TASK` and then null, is accepted by the validator and ignored by the
session handler. And a `DELETE_TASK` with a well-formed timestamp and a further
member `x` of value `1e400` is accepted by the validator, which skips the
member, and dropped by the session handler, whose decoding into the envelope
map fails on the number. -/
theorem validator_session_differ :
    (handleMessage (fun _ => some (JSONValue.object [("type", JSONValue.string "INSERT_TASK"),
        ("timestamp", JSONValue.string exampleTimestamp),
        ("data", JSONValue.object [])])) "raw" = Outcome.next [Action.submit "raw"] ∧
      handleValidateOp (fun _ => some (JSONValue.object
        [("type", JSONValue.string "INSERT_TASK"),
        ("timestamp", JSONValue.string exampleTimestamp),
        ("data", JSONValue.object [])])) "POST" (some "raw") = Verdict.taskIDRequired) ∧
    (handleMessage (fun _ => some (JSONValue.object [("type", JSONValue.string "DELETE_TASK")]))
        "raw" = Outcome.next [Action.submit "raw"] ∧
      handleValidateOp (fun _ => some (JSONValue.object
        [("type", JSONValue.string "DELETE_TASK")])) "POST" (some "raw")
        = Verdict.invalidTimestamp "" Hlc.ParseError.invalidFormat) ∧
    (handleMessage (fun _ => some (JSONValue.object [("type", JSONValue.string "DELETE_TASK"),
        ("timestamp", JSONValue.string exampleTimestamp), ("type", JSONValue.null)])) "raw"
        = Outcome.next [] ∧
      handleValidateOp (fun _ => some (JSONValue.object
        [("type", JSONValue.string "DELETE_TASK"),
        ("timestamp", JSONValue.string exampleTimestamp), ("type", JSONValue.null)]))
        "POST" (some "raw") = Verdict.valid) ∧
    (unmarshalEnvelope (some (JSONValue.object [("type", JSONValue.string "DELETE_TASK"),
        ("timestamp", JSONValue.string exampleTimestamp), ("x", JSONValue.number "1e400")]))
        = none ∧
      handleMessage (fun _ => some (JSONValue.object [("type", JSONValue.string "DELETE_TASK"),
        ("timestamp", JSONValue.string exampleTimestamp), ("x", JSONValue.number "1e400")]))
        "raw" = Outcome.next [] ∧
      handleValidateOp (fun _ => some (JSONValue.object
        [("type", JSONValue.string "DELETE_TASK"),
        ("timestamp", JSONValue.string exampleTimestamp), ("x", JSONValue.number "1e400")]))
        "POST" (some "raw") = Verdict.valid) := by
  refine ⟨⟨by decide, by decide⟩, ⟨by decide, by decide⟩, ⟨by decide, by decide⟩,
    ⟨by rfl, by decide, by decide⟩⟩

/-- C20: every successful `Parse` returns a non-empty `NodeID`;
`Parse(Zero().String())` fails with the invalid-format error; and the reply of
the session handler to every message that decodes to an envelope of type
`GET_MERKLE_ROOT` is the `MERKLE_ROOT` response whose timestamp is
`Zero().String()`, a string that `Parse` rejects. -/
theorem merkle_root_timestamp_rejected :
    (∀ (s : String) (h : Hlc.HLC), Hlc.Parse s = .ok h → h.NodeID ≠ "") ∧
    Hlc.Parse Hlc.Zero.String = .error Hlc.ParseError.invalidFormat ∧
    (∀ (decode : Message → Option JSONValue) (message : Message)
        (envelope : List (String × JSONValue)),
      unmarshalEnvelope (decode message) = some envelope →
      asString (lookup envelope "type") = some "GET_MERKLE_ROOT" →
      ∃ root timestamp actorId,
        handleMessage decode message
          = Outcome.next [Action.reply (Response.merkleRoot root timestamp actorId)] ∧
        timestamp = Hlc.Zero.String ∧
        Hlc.Parse timestamp = .error Hlc.ParseError.invalidFormat) := by
  refine ⟨Hlc.zero_string_rejected.1, Hlc.zero_string_rejected.2, ?_⟩
  intro decode message envelope henv hT
  refine ⟨"hash-empty-tree", Hlc.Zero.String, "server", ?_, rfl, Hlc.zero_string_rejected.2⟩
  rw [handleMessage_of_envelope decode message envelope henv, hT]
  have h1 : ("GET_MERKLE_ROOT" : String) ≠ "subscribe" := by decide
  simp only [Option.getD_some, h1, if_false, if_true, merkleRootResponse]

end Server
